import Mathlib

set_option maxHeartbeats 1000000

/-!
Shallow embedding of the structuring engine `src/word/text_to_structured.py`.

A document is a `List String` of lines (trailing line terminators already
stripped, as done by `process_single_file` when reading the file).  Python's
`str.strip()` is modelled by `strip` below (dropping whitespace characters from
both ends of the character list); fallible code (Python `raise`) is modelled by
`Option`/`Except`.
-/

/-! ### Marker and tag constants (module-level constants of the source) -/

def MARKER_PARENT : String := "[PARENT]"

def MARKER_CHILD : String := "[CHILD]"

def MARKER_QA_SPLIT : String := "[QA_SPLIT]"

def TAG_Q : String := "[Q] "

def TAG_A : String := "[A] "

/-! ### Line utilities -/

/-- Python `line.strip()`: remove whitespace from both ends. -/
def strip (line : String) : String :=
  String.mk (((line.toList.dropWhile Char.isWhitespace).reverse.dropWhile
    Char.isWhitespace).reverse)

/-- `is_blank_line`: `line.strip() == ""`. -/
def is_blank_line (line : String) : Bool := strip line == ""

/-- `is_non_empty_line`: `line.strip() != ""`. -/
def is_non_empty_line (line : String) : Bool := !(strip line == "")

/-- `lines[i]` with Python-style out-of-range left at `""` (all source call
sites index inside the list). -/
def getLine (lines : List String) (i : Nat) : String := lines.getD i ""

/-- Python `line.startswith(tag)`. -/
def starts_with (line tag : String) : Bool := List.isPrefixOf tag.toList line.toList

/-- Python `marker in line` (substring containment). -/
def contains_sub (line marker : String) : Bool :=
  (List.range (line.toList.length + 1)).any fun i =>
    List.isPrefixOf marker.toList (line.toList.drop i)

/-- Index of the first line satisfying `p` (used for Python
`next(i for i, line in enumerate(...) if ...)` and index scans). -/
def find_first (p : String → Bool) : List String → Option Nat
  | [] => none
  | line :: rest => if p line then some 0 else (find_first p rest).map (· + 1)

/-- `next_non_empty_index(lines, start_index)`: first non-empty line index at
or after `start`, if any. -/
def next_non_empty_index (lines : List String) (start : Nat) : Option Nat :=
  (find_first is_non_empty_line (lines.drop start)).map (· + start)

/-- `trim_trailing_blank`: delete all trailing blank lines. -/
def trim_trailing_blank (lines : List String) : List String :=
  (lines.reverse.dropWhile is_blank_line).reverse

/-- `trim_leading_blank`: delete all leading blank lines. -/
def trim_leading_blank (lines : List String) : List String :=
  lines.dropWhile is_blank_line

/-- Body loop of `normalize_blank_lines`: collapse runs of blank lines keeping
the first of each run; `prevBlank` is the `prev_blank` flag. -/
def normalize_body : List String → Bool → List String
  | [], _ => []
  | line :: rest, prevBlank =>
    let blank := is_blank_line line
    if blank && prevBlank then normalize_body rest prevBlank
    else line :: normalize_body rest blank

/-- `normalize_blank_lines`: collapse consecutive blank lines to one, keeping
the first two (file-head) lines untouched. -/
def normalize_blank_lines (lines : List String) : List String :=
  if lines.length ≤ 2 then lines
  else lines.take 2 ++ normalize_body (lines.drop 2) false

/-- Python list_slice `lines[a:b]`. -/
def list_slice (lines : List String) (a b : Nat) : List String :=
  (lines.drop a).take (b - a)

/-! ### 1. Date from the file name (`date_from_filename`) -/

def two_digit_val (c1 c2 : Char) : Nat := (c1.toNat - 48) * 10 + (c2.toNat - 48)

def is_leap_year (y : Nat) : Bool := (y % 4 == 0 && y % 100 != 0) || (y % 400 == 0)

def days_in_month (y m : Nat) : Nat :=
  if m == 2 then (if is_leap_year y then 29 else 28)
  else if m == 4 || m == 6 || m == 9 || m == 11 then 30
  else 31

/-- Validity of `datetime(y, m, d)` (the source years are 2000..2099, inside
`datetime`'s year range). -/
def valid_date (y m d : Nat) : Bool :=
  1 ≤ m && m ≤ 12 && 1 ≤ d && d ≤ days_in_month y m

def pad2 (n : Nat) : String := if n < 10 then "0" ++ toString n else toString n

def pad3 (n : Nat) : String :=
  if n < 10 then "00" ++ toString n
  else if n < 100 then "0" ++ toString n
  else toString n

def pad4 (n : Nat) : String :=
  if n < 10 then "000" ++ toString n
  else if n < 100 then "00" ++ toString n
  else if n < 1000 then "0" ++ toString n
  else toString n

/-- The regex `^(\d{6})_` of `date_from_filename`: six leading digits followed
by an underscore. -/
def matches_yymmdd_prefix (cs : List Char) : Bool :=
  match cs with
  | c1 :: c2 :: c3 :: c4 :: c5 :: c6 :: c7 :: _ =>
    c1.isDigit && c2.isDigit && c3.isDigit && c4.isDigit && c5.isDigit &&
      c6.isDigit && c7 == '_'
  | _ => false

/-- `date_from_filename`: returns `(out_date, id_date)`; `none` models the
`ValueError` raised on a malformed name and the `datetime` error on an invalid
calendar date. -/
def date_from_filename (input_filename : String) : Option (String × String) :=
  match input_filename.toList with
  | c1 :: c2 :: c3 :: c4 :: c5 :: c6 :: c7 :: _ =>
    if c1.isDigit && c2.isDigit && c3.isDigit && c4.isDigit && c5.isDigit &&
        c6.isDigit && c7 == '_' then
      let yy := two_digit_val c1 c2
      let mm := two_digit_val c3 c4
      let dd := two_digit_val c5 c6
      let yyyy := 2000 + yy
      if valid_date yyyy mm dd then
        some (pad4 yyyy ++ "-" ++ pad2 mm ++ "-" ++ pad2 dd,
              pad4 yyyy ++ pad2 mm ++ pad2 dd)
      else none
    else none
  | _ => none

/-! ### Marker-alone validation (`validate_marker_lines_are_alone`) -/

/-- Per-line errors of `validate_marker_lines_are_alone`, with `idx` the
1-based line number (the Python `{line!r}` repr is approximated by the raw
line). -/
def marker_alone_errors : List String → Nat → List String
  | [], _ => []
  | line :: rest, idx =>
    (([MARKER_PARENT, MARKER_CHILD, MARKER_QA_SPLIT].filter fun marker =>
        contains_sub line marker && !(strip line == marker)).map fun _ =>
      toString idx ++ "行目: マーカーが行単独ではありません: " ++ line)
    ++ marker_alone_errors rest (idx + 1)

def validate_marker_lines_are_alone (lines : List String) : List String :=
  marker_alone_errors lines 1

/-! ### 2-3. Block segmentation (`split_parent_blocks`, `split_child_blocks`) -/

/-- Pair up consecutive marker indices into half-open `(start, end)` ranges,
the last range ending at `endIdx`. -/
def mk_ranges : List Nat → Nat → List (Nat × Nat)
  | [], _ => []
  | [i], endIdx => [(i, endIdx)]
  | i :: j :: rest, endIdx => (i, j) :: mk_ranges (j :: rest) endIdx

def parent_indices (lines : List String) : List Nat :=
  (List.range lines.length).filter fun i => strip (getLine lines i) == MARKER_PARENT

def split_parent_blocks (lines : List String) : List (Nat × Nat) :=
  mk_ranges (parent_indices lines) lines.length

def child_indices (lines : List String) (parent_start parent_end : Nat) : List Nat :=
  (List.range' parent_start (parent_end - parent_start)).filter fun i =>
    strip (getLine lines i) == MARKER_CHILD

def split_child_blocks (lines : List String) (parent_start parent_end : Nat) :
    List (Nat × Nat) :=
  mk_ranges (child_indices lines parent_start parent_end) parent_end

/-! ### Pre-validation (`validate_file_structure`) -/

/-- The `[i for i in range(c_start, c_end) if lines[i].strip() == MARKER_QA_SPLIT]`
list of a child block. -/
def qa_split_indices (lines : List String) (c_start c_end : Nat) : List Nat :=
  (List.range' c_start (c_end - c_start)).filter fun i =>
    strip (getLine lines i) == MARKER_QA_SPLIT

/-- Checks 4-6 of `validate_file_structure` for one child block (at most one
error per child thanks to the `continue` statements). -/
def validate_child_block (lines : List String) (p_idx c_idx : Nat)
    (cb : Nat × Nat) : List String :=
  if (qa_split_indices lines cb.1 cb.2).length == 0 then
    [toString p_idx ++ "番目問答 / " ++ toString c_idx ++
      "番目子ブロック: [QA_SPLIT] がありません。"]
  else if 2 ≤ (qa_split_indices lines cb.1 cb.2).length then
    [toString p_idx ++ "番目問答 / " ++ toString c_idx ++
      "番目子ブロック: [QA_SPLIT] が複数存在します。"]
  else
    match next_non_empty_index lines (cb.1 + 1) with
    | none =>
      [toString p_idx ++ "番目問答 / " ++ toString c_idx ++
        "番目子ブロック: [CHILD] の次の非空行（質問起点）が存在しない、または [QA_SPLIT] より後です。"]
    | some q_line_idx =>
      if (qa_split_indices lines cb.1 cb.2).headD 0 ≤ q_line_idx then
        [toString p_idx ++ "番目問答 / " ++ toString c_idx ++
          "番目子ブロック: [CHILD] の次の非空行（質問起点）が存在しない、または [QA_SPLIT] より後です。"]
      else
        match next_non_empty_index lines
            ((qa_split_indices lines cb.1 cb.2).headD 0 + 1) with
        | none =>
          [toString p_idx ++ "番目問答 / " ++ toString c_idx ++
            "番目子ブロック: [QA_SPLIT] の次の非空行（回答起点）が存在しません。"]
        | some a_line_idx =>
          if cb.2 ≤ a_line_idx then
            [toString p_idx ++ "番目問答 / " ++ toString c_idx ++
              "番目子ブロック: [QA_SPLIT] の次の非空行（回答起点）が存在しません。"]
          else []

def validate_children (lines : List String) (p_idx : Nat) :
    Nat → List (Nat × Nat) → List String
  | _, [] => []
  | c_idx, cb :: rest =>
    validate_child_block lines p_idx c_idx cb ++
      validate_children lines p_idx (c_idx + 1) rest

/-- Check 3 plus the per-child checks for one parent block. -/
def validate_parent_block (lines : List String) (p_idx : Nat) (pb : Nat × Nat) :
    List String :=
  let child_blocks := split_child_blocks lines pb.1 pb.2
  if child_blocks.isEmpty then
    [toString p_idx ++ "番目の問答ブロック: [CHILD] が1つもありません。"]
  else validate_children lines p_idx 1 child_blocks

def validate_parents (lines : List String) : Nat → List (Nat × Nat) → List String
  | _, [] => []
  | p_idx, pb :: rest =>
    validate_parent_block lines p_idx pb ++ validate_parents lines (p_idx + 1) rest

/-- `validate_file_structure`: the full pre-validation; a document with zero
parent blocks halts after reporting that violation. -/
def validate_file_structure (lines : List String) : List String :=
  let marker_line_errors := validate_marker_lines_are_alone lines
  let parent_blocks := split_parent_blocks lines
  if parent_blocks.isEmpty then
    marker_line_errors ++ ["[PARENT] が1つもありません。"]
  else
    marker_line_errors ++ validate_parents lines 1 parent_blocks

/-! ### 6. Department extraction (`extract_department_from_major_question`) -/

/-- First match of the regex `【([^】]*)】` in a character list: group 1 of the
leftmost full-width-bracket pair. -/
def find_bracket_token : List Char → Option (List Char)
  | [] => none
  | c :: rest =>
    if c = '【' then
      let inner := rest.takeWhile fun d => !(d = '】')
      if inner.length = rest.length then none else some inner
    else find_bracket_token rest

def extract_department_from_major_question : List String → Option String
  | [] => none
  | line :: rest =>
    match find_bracket_token line.toList with
    | some token => some (String.mk token)
    | none => extract_department_from_major_question rest

/-! ### 7. Child block output construction (`build_child_output_lines`) -/

/-- The tagging of one line:
`if not line.startswith(tag): line = tag + line`. -/
def tag_line (tag line : String) : String :=
  if starts_with line tag then line else tag ++ line

/-- The tagging step applied to a question/answer part: find the first
non-empty line and prefix it with the tag unless already tagged; `none` models
the `ValueError` when no non-empty line exists. -/
def tag_step (tag : String) (part : List String) : Option (List String) :=
  match next_non_empty_index part 0 with
  | none => none
  | some i => some (part.set i (tag_line tag (getLine part i)))

def optNatToString : Option Nat → String
  | some n => toString n
  | none => "None"

/-- `build_child_output_lines`, on the child content (the `[CHILD]` line
excluded); `Except.error` models the exceptions it raises. -/
def build_child_output_lines (child_content_lines : List String)
    (is_major : Bool) (followup_number : Option Nat) : Except String (List String) :=
  match find_first (fun line => strip line == MARKER_QA_SPLIT) child_content_lines with
  | none => Except.error "StopIteration"
  | some qa_rel =>
    let question_part := trim_trailing_blank (child_content_lines.take qa_rel)
    let answer_part := trim_leading_blank (child_content_lines.drop (qa_rel + 1))
    match tag_step TAG_Q question_part with
    | none => Except.error "質問部に非空行がありません。"
    | some question_tagged =>
      match tag_step TAG_A answer_part with
      | none => Except.error "回答部に非空行がありません。"
      | some answer_tagged =>
        let title_lines : List String :=
          if is_major then ["## 主要問答"]
          else ["## 更問" ++ optNatToString followup_number]
        let out := [MARKER_CHILD] ++ title_lines ++ question_tagged ++ answer_tagged
        let q_count := (out.filter fun line => starts_with line TAG_Q).length
        let a_count := (out.filter fun line => starts_with line TAG_A).length
        if q_count != 1 || a_count != 1 then
          Except.error ("子ブロックの [Q]/[A] 出現数が不正です（[Q]=" ++
            toString q_count ++ ", [A]=" ++ toString a_count ++ "）。")
        else
          match find_first (fun line => starts_with line TAG_Q) out,
                find_first (fun line => starts_with line TAG_A) out with
          | some q_pos, some a_pos =>
            if a_pos ≤ q_pos then
              Except.error "子ブロックの [Q] が [A] より後に出現しています。"
            else Except.ok (trim_trailing_blank out)
          | _, _ => Except.error "StopIteration"

/-! ### Per-file orchestration (`process_single_file`) -/

/-- Content of a child block, the `[CHILD]` line excluded:
`lines[c_start + 1 : c_end]`. -/
def child_content_of (lines : List String) (cb : Nat × Nat) : List String :=
  list_slice lines (cb.1 + 1) cb.2

/-- The inner child loop of `process_single_file`: build every child block's
output, separating consecutive child outputs with one blank line; `c_idx` and
`followup_no` thread the loop counters. -/
def build_children (lines : List String) :
    List (Nat × Nat) → Nat → Nat → Except String (List String)
  | [], _, _ => Except.ok []
  | cb :: rest, c_idx, followup_no =>
    let child_content := child_content_of lines cb
    let is_major := c_idx == 1
    let followup_no' := if is_major then followup_no else followup_no + 1
    match build_child_output_lines child_content is_major
        (if is_major then none else some followup_no') with
    | Except.error e => Except.error e
    | Except.ok child_out =>
      match build_children lines rest (c_idx + 1) followup_no' with
      | Except.error e => Except.error e
      | Except.ok rest_out =>
        Except.ok (child_out ++ (if rest.isEmpty then [] else [""]) ++ rest_out)

/-- One iteration of the parent loop of `process_single_file`: the parent
header (record id, date, department), the tagged copy of the primary question,
one separating blank line, then all child outputs. -/
def process_parent_block (lines : List String) (out_date id_date : String)
    (p_idx qa_seq : Nat) (pb : Nat × Nat) : Except String (List String) :=
  let child_blocks := split_child_blocks lines pb.1 pb.2
  match child_blocks with
  | [] => Except.error (toString p_idx ++ "番目の問答ブロック: [CHILD] が1つもありません。")
  | mc :: _ =>
    let major_child_content := child_content_of lines mc
    match find_first (fun line => strip line == MARKER_QA_SPLIT) major_child_content with
    | none => Except.error "StopIteration"
    | some qa_rel =>
      let major_question_raw := major_child_content.take qa_rel
      let dept := (extract_department_from_major_question major_question_raw).getD ""
      let qa_id := id_date ++ "-" ++ pad3 qa_seq
      match tag_step TAG_Q (trim_trailing_blank major_question_raw) with
      | none => Except.error "主要質問（親チャンク）に非空行がありません。"
      | some parent_q_lines =>
        match build_children lines child_blocks 1 0 with
        | Except.error e => Except.error e
        | Except.ok children_out =>
          Except.ok ([MARKER_PARENT, "# 問答ID: " ++ qa_id, "- 日付: " ++ out_date,
            "- 部署: " ++ dept] ++ parent_q_lines ++ [""] ++ children_out)

/-- The parent loop of `process_single_file`: blocks separated by one blank
line (before every block except the first); `p_idx` and `qa_seq` thread the
loop counters. -/
def process_parents (lines : List String) (out_date id_date : String) :
    List (Nat × Nat) → Nat → Nat → Except String (List String)
  | [], _, _ => Except.ok []
  | pb :: rest, p_idx, qa_seq =>
    match process_parent_block lines out_date id_date p_idx qa_seq pb with
    | Except.error e => Except.error e
    | Except.ok pout =>
      match process_parents lines out_date id_date rest (p_idx + 1) (qa_seq + 1) with
      | Except.error e => Except.error e
      | Except.ok rest_out =>
        Except.ok ((if 1 < p_idx then [""] else []) ++ pout ++ rest_out)

/-- The transformation performed on a file that passed validation: date from
the file name, then the parent loop starting with two blank lines, then blank
line normalization. -/
def transform_valid_file (lines : List String) (filename : String) :
    Except String (List String) :=
  match date_from_filename filename with
  | none => Except.error ("ファイル名が想定形式ではありません（先頭 yymmdd_ 必須）: " ++ filename)
  | some (out_date, id_date) =>
    match process_parents lines out_date id_date (split_parent_blocks lines) 1 1 with
    | Except.error e => Except.error e
    | Except.ok body => Except.ok (normalize_blank_lines ("" :: "" :: body))

/-- `"\n".join(lines).rstrip("\n") + "\n"` as a line list: drop trailing
empty lines. -/
def serialize_doc (out_lines : List String) : List String :=
  (out_lines.reverse.dropWhile fun l => l == "").reverse

def join_sep (sep : String) : List String → String
  | [] => ""
  | [x] => x
  | x :: rest => x ++ sep ++ join_sep sep rest

/-- Result of processing one file: a structured output document, or a
diagnostic (`_ERROR.txt`) document plus the error message. -/
inductive FileResult where
  | ok_output (doc : List String) : FileResult
  | error_output (doc : List String) (msg : String) : FileResult
deriving DecidableEq

/-- `process_single_file`: validate; on violations emit the diagnostic
document; otherwise run the transformation (any raised error also yields a
diagnostic document). -/
def process_single_file (lines : List String) (filename : String) : FileResult :=
  let fatal_errors := validate_file_structure lines
  if fatal_errors.isEmpty then
    match transform_valid_file lines filename with
    | Except.ok out => FileResult.ok_output (serialize_doc out)
    | Except.error e =>
      FileResult.error_output
        (serialize_doc ["", "", "ERROR: 実行時例外が発生しました。", "- " ++ e]) e
  else
    FileResult.error_output
      (serialize_doc (["", "", "ERROR: 入力ファイルの構造が不正です。"] ++
        fatal_errors.map fun e => "- " ++ e))
      (join_sep " / " fatal_errors)

/-- Non-blank lines of a document (used to state ordering/content claims). -/
def nb_lines (lines : List String) : List String := lines.filter is_non_empty_line

/-- Segments joined by single blank separator lines (the shape of the parent
and child loops' concatenation). -/
def blank_sep_join : List (List String) → List String
  | [] => []
  | [s] => s
  | s :: rest => s ++ [""] ++ blank_sep_join rest

/-! ## Basic lemmas about the line utilities -/

theorem getLine_cons_zero (x : String) (l : List String) : getLine (x :: l) 0 = x := rfl

theorem getLine_cons_succ (x : String) (l : List String) (i : Nat) :
    getLine (x :: l) (i + 1) = getLine l i := rfl

theorem getLine_nil (i : Nat) : getLine [] i = "" := by cases i <;> rfl

theorem getLine_eq_empty_of_ge (l : List String) (i : Nat) (h : l.length ≤ i) :
    getLine l i = "" := by
  simp [getLine, List.getD_eq_getElem?_getD, List.getElem?_eq_none h]

theorem getLine_mem (l : List String) (i : Nat) (h : i < l.length) :
    getLine l i ∈ l := by
  simp only [getLine, List.getD_eq_getElem?_getD, List.getElem?_eq_getElem h]
  exact List.getElem_mem h

theorem getLine_append_left (a b : List String) (i : Nat) (h : i < a.length) :
    getLine (a ++ b) i = getLine a i := by
  simp [getLine, List.getD_eq_getElem?_getD, List.getElem?_append_left h]

theorem getLine_append_right (a b : List String) (i : Nat) :
    getLine (a ++ b) (a.length + i) = getLine b i := by
  simp [getLine, List.getD_eq_getElem?_getD, List.getElem?_append_right (Nat.le_add_right a.length i)]

theorem getLine_drop (l : List String) (n i : Nat) :
    getLine (l.drop n) i = getLine l (n + i) := by
  simp [getLine, List.getD_eq_getElem?_getD, List.getElem?_drop]

theorem getLine_take (l : List String) (n i : Nat) (h : i < n) :
    getLine (l.take n) i = getLine l i := by
  simp [getLine, List.getD_eq_getElem?_getD, List.getElem?_take, h]

/-! ## Blankness and tags -/

theorem strip_ne_empty_of_mem {line : String} {c : Char} (hc : c ∈ line.toList)
    (hw : c.isWhitespace = false) : is_blank_line line = false := by
  have key : ∀ (cs : List Char), c ∈ cs → List.dropWhile Char.isWhitespace cs ≠ [] := by
    intro cs hmem hnil
    rw [List.dropWhile_eq_nil_iff] at hnil
    have := hnil c hmem
    simp [hw] at this
  have h1 : List.dropWhile Char.isWhitespace line.toList ≠ [] :=
    key _ hc
  have hc1 : c ∈ (List.dropWhile Char.isWhitespace line.toList).reverse := by
    rw [List.mem_reverse]
    have := List.takeWhile_append_dropWhile (p := Char.isWhitespace) (l := line.toList)
    rcases List.mem_append.mp (by rw [this]; exact hc) with h | h
    · exact absurd (List.mem_takeWhile_imp h) (by simp [hw])
    · exact h
  have h2 : List.dropWhile Char.isWhitespace
      (List.dropWhile Char.isWhitespace line.toList).reverse ≠ [] := key _ hc1
  simp only [is_blank_line, strip]
  rw [beq_eq_false_iff_ne]
  intro heq
  have : (((line.toList.dropWhile Char.isWhitespace).reverse.dropWhile
      Char.isWhitespace).reverse) = [] := by
    have := congrArg String.toList heq
    simpa using this
  exact h2 (by simpa using this)

theorem starts_with_iff (line tag : String) :
    starts_with line tag = true ↔ tag.toList <+: line.toList := by
  simp [starts_with, List.isPrefixOf_iff_prefix]

theorem not_blank_of_starts_tag_q {line : String} (h : starts_with line TAG_Q = true) :
    is_blank_line line = false := by
  rw [starts_with_iff] at h
  obtain ⟨t, ht⟩ := h
  apply strip_ne_empty_of_mem (c := '[')
  · rw [← ht]; simp [TAG_Q]
  · decide

theorem not_blank_of_starts_tag_a {line : String} (h : starts_with line TAG_A = true) :
    is_blank_line line = false := by
  rw [starts_with_iff] at h
  obtain ⟨t, ht⟩ := h
  apply strip_ne_empty_of_mem (c := '[')
  · rw [← ht]; simp [TAG_A]
  · decide

theorem starts_with_append_self (tag rest : String) :
    starts_with (tag ++ rest) tag = true := by
  rw [starts_with_iff]
  exact ⟨rest.toList, by simp⟩

/-- The tagged line always carries the tag. -/
theorem starts_with_tag_line (tag line : String) :
    starts_with (tag_line tag line) tag = true := by
  unfold tag_line
  by_cases h : starts_with line tag = true
  · simp [h]
  · simp [h, starts_with_append_self]

theorem tag_line_of_starts (tag line : String) (h : starts_with line tag = true) :
    tag_line tag line = line := by simp [tag_line, h]

/-- A line starting with `TAG_Q` does not start with `TAG_A`, and conversely. -/
theorem not_starts_a_of_starts_q {line : String} (h : starts_with line TAG_Q = true) :
    starts_with line TAG_A = false := by
  rw [starts_with_iff] at h
  obtain ⟨t, ht⟩ := h
  have : line.toList = '[' :: 'Q' :: ']' :: ' ' :: t := by rw [← ht]; rfl
  simp only [starts_with]
  rw [this]
  rfl

theorem not_starts_q_of_starts_a {line : String} (h : starts_with line TAG_A = true) :
    starts_with line TAG_Q = false := by
  rw [starts_with_iff] at h
  obtain ⟨t, ht⟩ := h
  have : line.toList = '[' :: 'A' :: ']' :: ' ' :: t := by rw [← ht]; rfl
  simp only [starts_with]
  rw [this]
  rfl

theorem blank_not_starts_q {line : String} (h : is_blank_line line = true) :
    starts_with line TAG_Q = false := by
  by_contra hh
  rw [Bool.not_eq_false] at hh
  rw [not_blank_of_starts_tag_q hh] at h
  exact Bool.false_ne_true h

theorem blank_not_starts_a {line : String} (h : is_blank_line line = true) :
    starts_with line TAG_A = false := by
  by_contra hh
  rw [Bool.not_eq_false] at hh
  rw [not_blank_of_starts_tag_a hh] at h
  exact Bool.false_ne_true h

/-! ## `find_first` and `next_non_empty_index` -/

theorem find_first_none_iff (p : String → Bool) (l : List String) :
    find_first p l = none ↔ ∀ x ∈ l, p x = false := by
  induction l with
  | nil => simp [find_first]
  | cons a rest ih =>
    by_cases h : p a = true
    · simp [find_first, h]
    · rw [Bool.not_eq_true] at h
      simp [find_first, h, ih]

theorem find_first_some (p : String → Bool) (l : List String) (i : Nat)
    (h : find_first p l = some i) :
    i < l.length ∧ p (getLine l i) = true ∧ ∀ j, j < i → p (getLine l j) = false := by
  induction l generalizing i with
  | nil => simp [find_first] at h
  | cons a rest ih =>
    by_cases ha : p a = true
    · simp [find_first, ha] at h
      subst h
      exact ⟨Nat.succ_pos _, by simpa [getLine_cons_zero], fun j hj => absurd hj (Nat.not_lt_zero j)⟩
    · rw [Bool.not_eq_true] at ha
      simp [find_first, ha] at h
      obtain ⟨i', hi', rfl⟩ := h
      obtain ⟨h1, h2, h3⟩ := ih i' hi'
      refine ⟨by simpa using Nat.succ_lt_succ h1, by simpa [getLine_cons_succ], ?_⟩
      intro j hj
      cases j with
      | zero => simpa [getLine_cons_zero]
      | succ j' =>
        rw [getLine_cons_succ]
        exact h3 j' (Nat.lt_of_succ_lt_succ hj)

theorem find_first_intro (p : String → Bool) (l : List String) (i : Nat)
    (h1 : i < l.length) (h2 : p (getLine l i) = true)
    (h3 : ∀ j, j < i → p (getLine l j) = false) :
    find_first p l = some i := by
  induction l generalizing i with
  | nil => simp at h1
  | cons a rest ih =>
    cases i with
    | zero =>
      rw [getLine_cons_zero] at h2
      simp [find_first, h2]
    | succ i' =>
      have ha : p a = false := by
        have := h3 0 (Nat.succ_pos _)
        simpa [getLine_cons_zero] using this
      simp [find_first, ha]
      refine ih i' (Nat.lt_of_succ_lt_succ h1) (by simpa [getLine_cons_succ] using h2) ?_
      intro j hj
      have := h3 (j + 1) (Nat.succ_lt_succ hj)
      simpa [getLine_cons_succ] using this

theorem next_non_empty_some (lines : List String) (start i : Nat)
    (h : next_non_empty_index lines start = some i) :
    start ≤ i ∧ i < lines.length ∧ is_non_empty_line (getLine lines i) = true ∧
      ∀ j, start ≤ j → j < i → is_blank_line (getLine lines j) = true := by
  simp only [next_non_empty_index, Option.map_eq_some'] at h
  obtain ⟨k, hk, rfl⟩ := h
  obtain ⟨h1, h2, h3⟩ := find_first_some _ _ _ hk
  rw [List.length_drop] at h1
  have hstart : start ≤ lines.length := by
    by_contra hs
    push_neg at hs
    omega
  refine ⟨Nat.le_add_left start k, by omega, ?_, ?_⟩
  · rw [getLine_drop] at h2
    rwa [Nat.add_comm start k] at h2
  · intro j hj1 hj2
    have := h3 (j - start) (by omega)
    rw [getLine_drop] at this
    have hj : start + (j - start) = j := by omega
    rw [hj] at this
    simpa [is_non_empty_line, is_blank_line] using this

theorem next_non_empty_intro (lines : List String) (start i : Nat)
    (h0 : start ≤ i) (h1 : i < lines.length)
    (h2 : is_non_empty_line (getLine lines i) = true)
    (h3 : ∀ j, start ≤ j → j < i → is_blank_line (getLine lines j) = true) :
    next_non_empty_index lines start = some i := by
  simp only [next_non_empty_index, Option.map_eq_some']
  refine ⟨i - start, ?_, by omega⟩
  apply find_first_intro
  · rw [List.length_drop]; omega
  · rw [getLine_drop]
    have : start + (i - start) = i := by omega
    rwa [this]
  · intro j hj
    rw [getLine_drop]
    have := h3 (start + j) (Nat.le_add_right _ _) (by omega)
    simpa [is_non_empty_line, is_blank_line] using this

theorem next_non_empty_none (lines : List String) (start : Nat)
    (h : next_non_empty_index lines start = none) :
    ∀ j, start ≤ j → j < lines.length → is_blank_line (getLine lines j) = true := by
  simp only [next_non_empty_index, Option.map_eq_none'] at h
  rw [find_first_none_iff] at h
  intro j hj1 hj2
  have hmem : getLine lines j ∈ lines.drop start := by
    have : getLine (lines.drop start) (j - start) = getLine lines j := by
      rw [getLine_drop]
      congr 1
      omega
    rw [← this]
    apply getLine_mem
    rw [List.length_drop]
    omega
  have := h _ hmem
  simpa [is_non_empty_line, is_blank_line] using this

/-! ## Trimming lemmas -/

theorem trim_trailing_spec (l : List String) :
    ∃ k, k ≤ l.length ∧ trim_trailing_blank l = l.take k ∧
      ∀ j, k ≤ j → is_blank_line (getLine l j) = true := by
  have hsplit := List.takeWhile_append_dropWhile is_blank_line l.reverse
  have hl : l = (l.reverse.dropWhile is_blank_line).reverse ++
      (l.reverse.takeWhile is_blank_line).reverse := by
    have h2 := congrArg List.reverse hsplit
    rw [List.reverse_append, List.reverse_reverse] at h2
    exact h2.symm
  have hlen_le : (l.reverse.dropWhile is_blank_line).length ≤ l.length := by
    have := (List.dropWhile_sublist (l := l.reverse) is_blank_line).length_le
    rwa [List.length_reverse] at this
  refine ⟨(l.reverse.dropWhile is_blank_line).length, hlen_le, ?_, ?_⟩
  · show (l.reverse.dropWhile is_blank_line).reverse = _
    have key : l.take ((l.reverse.dropWhile is_blank_line).reverse).length =
        ((l.reverse.dropWhile is_blank_line).reverse ++
          (l.reverse.takeWhile is_blank_line).reverse).take
            ((l.reverse.dropWhile is_blank_line).reverse).length := by
      rw [← hl]
    rw [show (l.reverse.dropWhile is_blank_line).length =
        ((l.reverse.dropWhile is_blank_line).reverse).length from
        (List.length_reverse _).symm, key, List.take_left]
  · intro j hj
    by_cases hjl : j < l.length
    · have hidx : j = ((l.reverse.dropWhile is_blank_line).reverse).length +
          (j - (l.reverse.dropWhile is_blank_line).length) := by
        rw [List.length_reverse]; omega
      have hget : getLine l j =
          getLine ((l.reverse.takeWhile is_blank_line).reverse)
            (j - (l.reverse.dropWhile is_blank_line).length) := by
        conv_lhs => rw [hl, hidx]
        rw [getLine_append_right]
      rw [hget]
      by_cases hlt : j - (l.reverse.dropWhile is_blank_line).length <
          ((l.reverse.takeWhile is_blank_line).reverse).length
      · have hmem := getLine_mem _ _ hlt
        rw [List.mem_reverse] at hmem
        exact List.mem_takeWhile_imp hmem
      · rw [getLine_eq_empty_of_ge _ _ (by omega)]; decide
    · rw [getLine_eq_empty_of_ge l j (by omega)]; decide

theorem nb_lines_take_of_blank_rest (l : List String) (k : Nat)
    (h : ∀ j, k ≤ j → is_blank_line (getLine l j) = true) :
    nb_lines (l.take k) = nb_lines l := by
  induction l generalizing k with
  | nil => simp
  | cons a rest ih =>
    cases k with
    | zero =>
      have hall : ∀ x ∈ a :: rest, ¬ is_non_empty_line x = true := by
        intro x hx
        obtain ⟨i, hi, rfl⟩ := List.getElem_of_mem hx
        have hb := h i (Nat.zero_le i)
        have hg : getLine (a :: rest) i = (a :: rest)[i] := by
          simp [getLine, List.getD_eq_getElem?_getD, List.getElem?_eq_getElem hi]
        rw [hg] at hb
        simp [is_non_empty_line, is_blank_line] at hb ⊢
        exact hb
      simp only [List.take_zero, nb_lines]
      exact (List.filter_eq_nil_iff.mpr hall).symm
    | succ k' =>
      simp only [List.take_succ_cons, nb_lines, List.filter_cons]
      have ihh := ih k' (fun j hj => by
        have := h (j + 1) (Nat.succ_le_succ hj)
        rwa [getLine_cons_succ] at this)
      simp only [nb_lines] at ihh
      rw [ihh]

theorem nb_lines_trim_trailing (l : List String) :
    nb_lines (trim_trailing_blank l) = nb_lines l := by
  obtain ⟨k, _, heq, hblank⟩ := trim_trailing_spec l
  rw [heq]
  exact nb_lines_take_of_blank_rest l k hblank

theorem trim_leading_eq_drop (l : List String) (i : Nat) (hi : i < l.length)
    (h1 : ∀ j, j < i → is_blank_line (getLine l j) = true)
    (h2 : is_blank_line (getLine l i) = false) :
    trim_leading_blank l = l.drop i := by
  induction l generalizing i with
  | nil => simp at hi
  | cons a rest ih =>
    cases i with
    | zero =>
      rw [getLine_cons_zero] at h2
      simp [trim_leading_blank, List.dropWhile_cons, h2]
    | succ i' =>
      have ha : is_blank_line a = true := by
        have := h1 0 (Nat.succ_pos _)
        rwa [getLine_cons_zero] at this
      simp only [trim_leading_blank, List.dropWhile_cons, ha, if_true, List.drop_succ_cons]
      exact ih i' (Nat.lt_of_succ_lt_succ hi)
        (fun j hj => by have := h1 (j + 1) (Nat.succ_lt_succ hj); rwa [getLine_cons_succ] at this)
        (by rwa [getLine_cons_succ] at h2)

theorem nb_lines_trim_leading (l : List String) :
    nb_lines (trim_leading_blank l) = nb_lines l := by
  induction l with
  | nil => rfl
  | cons a rest ih =>
    by_cases ha : is_blank_line a = true
    · have hna : is_non_empty_line a = false := by
        simpa [is_non_empty_line, is_blank_line] using ha
      simp only [trim_leading_blank, List.dropWhile_cons, ha, if_true]
      simp only [trim_leading_blank] at ih
      rw [ih]
      simp [nb_lines, List.filter_cons, hna]
    · rw [Bool.not_eq_true] at ha
      simp [trim_leading_blank, List.dropWhile_cons, ha]

/-! ## Normalization lemmas -/

theorem normalize_body_cons_skip (x : String) (rest : List String)
    (hx : is_blank_line x = true) :
    normalize_body (x :: rest) true = normalize_body rest true := by
  simp [normalize_body, hx]

theorem normalize_body_cons_keep (x : String) (rest : List String) (b : Bool)
    (h : (is_blank_line x && b) = false) :
    normalize_body (x :: rest) b = x :: normalize_body rest (is_blank_line x) := by
  simp only [normalize_body]
  rw [h]
  simp

theorem nb_lines_cons_blank (x : String) (l : List String)
    (hx : is_blank_line x = true) : nb_lines (x :: l) = nb_lines l := by
  have hnx : is_non_empty_line x = false := by
    simpa [is_non_empty_line, is_blank_line] using hx
  simp [nb_lines, List.filter_cons, hnx]

theorem nb_lines_cons_non_blank (x : String) (l : List String)
    (hx : is_blank_line x = false) : nb_lines (x :: l) = x :: nb_lines l := by
  have hnx : is_non_empty_line x = true := by
    simpa [is_non_empty_line, is_blank_line] using hx
  simp [nb_lines, List.filter_cons, hnx]

theorem nb_lines_normalize_body (xs : List String) (b : Bool) :
    nb_lines (normalize_body xs b) = nb_lines xs := by
  induction xs generalizing b with
  | nil => rfl
  | cons x rest ih =>
    by_cases hx : is_blank_line x = true
    · cases b with
      | true =>
        rw [normalize_body_cons_skip x rest hx, ih, nb_lines_cons_blank x rest hx]
      | false =>
        rw [normalize_body_cons_keep x rest false (by simp), hx,
          nb_lines_cons_blank x _ hx, ih, nb_lines_cons_blank x rest hx]
    · rw [Bool.not_eq_true] at hx
      rw [normalize_body_cons_keep x rest b (by simp [hx]), hx,
        nb_lines_cons_non_blank x _ hx, ih, nb_lines_cons_non_blank x rest hx]

/-- Head of `normalize_body xs true` is never blank. -/
theorem normalize_body_true_head (xs : List String)
    (h : 0 < (normalize_body xs true).length) :
    is_blank_line (getLine (normalize_body xs true) 0) = false := by
  induction xs with
  | nil => simp [normalize_body] at h
  | cons x rest ih =>
    by_cases hx : is_blank_line x = true
    · rw [normalize_body_cons_skip x rest hx] at h ⊢
      exact ih h
    · rw [Bool.not_eq_true] at hx
      rw [normalize_body_cons_keep x rest true (by simp [hx])]
      rwa [getLine_cons_zero]

/-- In `normalize_body`, a blank line is never followed by a blank line. -/
theorem normalize_body_no_adjacent (xs : List String) (b : Bool) (j : Nat)
    (hj : j + 1 < (normalize_body xs b).length)
    (hb : is_blank_line (getLine (normalize_body xs b) j) = true) :
    is_blank_line (getLine (normalize_body xs b) (j + 1)) = false := by
  induction xs generalizing b j with
  | nil => simp [normalize_body] at hj
  | cons x rest ih =>
    by_cases hx : is_blank_line x = true
    · cases b with
      | true =>
        rw [normalize_body_cons_skip x rest hx] at hj hb ⊢
        exact ih true j hj hb
      | false =>
        rw [normalize_body_cons_keep x rest false (by simp), hx] at hj hb ⊢
        cases j with
        | zero =>
          rw [getLine_cons_succ]
          apply normalize_body_true_head
          simpa using Nat.lt_of_succ_lt_succ hj
        | succ j' =>
          rw [getLine_cons_succ] at hb ⊢
          exact ih true j' (by simpa using Nat.lt_of_succ_lt_succ hj) hb
    · rw [Bool.not_eq_true] at hx
      rw [normalize_body_cons_keep x rest b (by simp [hx]), hx] at hj hb ⊢
      cases j with
      | zero =>
        rw [getLine_cons_zero] at hb
        rw [hx] at hb
        exact absurd hb (by simp)
      | succ j' =>
        rw [getLine_cons_succ] at hb ⊢
        exact ih false j' (by simpa using Nat.lt_of_succ_lt_succ hj) hb

/-! ## Serialization lemmas -/

theorem serialize_doc_decomp (l : List String) :
    ∃ t, l = serialize_doc l ++ t ∧ ∀ x ∈ t, x = "" := by
  refine ⟨(l.reverse.takeWhile fun s => s == "").reverse, ?_, ?_⟩
  · have hsplit := List.takeWhile_append_dropWhile (fun s => s == "") l.reverse
    have h2 := congrArg List.reverse hsplit
    rw [List.reverse_append, List.reverse_reverse] at h2
    exact h2.symm
  · intro x hx
    rw [List.mem_reverse] at hx
    have := List.mem_takeWhile_imp hx
    simpa using this

theorem serialize_doc_getLine (l : List String) (k : Nat)
    (hk : k < (serialize_doc l).length) :
    getLine (serialize_doc l) k = getLine l k := by
  obtain ⟨t, hl, -⟩ := serialize_doc_decomp l
  conv_rhs => rw [hl]
  rw [getLine_append_left _ _ _ hk]

theorem serialize_doc_length_gt (l : List String) (k : Nat)
    (hk : getLine l k ≠ "") : k < (serialize_doc l).length := by
  obtain ⟨t, hl, ht⟩ := serialize_doc_decomp l
  by_contra hcon
  push_neg at hcon
  apply hk
  have hidx : k = (serialize_doc l).length + (k - (serialize_doc l).length) := by omega
  have hget : getLine l k = getLine t (k - (serialize_doc l).length) := by
    conv_lhs => rw [hl, hidx]
    rw [getLine_append_right]
  rw [hget]
  by_cases hlt : k - (serialize_doc l).length < t.length
  · exact ht _ (getLine_mem _ _ hlt)
  · exact getLine_eq_empty_of_ge _ _ (by omega)

theorem nb_lines_append (a b : List String) :
    nb_lines (a ++ b) = nb_lines a ++ nb_lines b := by
  simp [nb_lines, List.filter_append]

theorem nb_lines_serialize (l : List String) :
    nb_lines (serialize_doc l) = nb_lines l := by
  obtain ⟨t, hl, ht⟩ := serialize_doc_decomp l
  conv_rhs => rw [hl]
  rw [nb_lines_append]
  have : nb_lines t = [] := by
    rw [nb_lines, List.filter_eq_nil_iff]
    intro x hx
    rw [ht x hx]
    decide
  rw [this, List.append_nil]

/-! ## Inversion lemmas for the orchestrator -/

theorem process_single_inv (lines : List String) (filename : String)
    (doc : List String)
    (h : process_single_file lines filename = FileResult.ok_output doc) :
    validate_file_structure lines = [] ∧
      ∃ out, transform_valid_file lines filename = Except.ok out ∧
        doc = serialize_doc out := by
  unfold process_single_file at h
  simp only [] at h
  split at h
  · rename_i hv
    refine ⟨List.isEmpty_iff.mp hv, ?_⟩
    split at h
    · rename_i out htr
      simp only [FileResult.ok_output.injEq] at h
      exact ⟨out, htr, h.symm⟩
    · simp at h
  · simp at h

theorem transform_inv (lines : List String) (filename : String)
    (out : List String)
    (h : transform_valid_file lines filename = Except.ok out) :
    ∃ out_date id_date body,
      date_from_filename filename = some (out_date, id_date) ∧
      process_parents lines out_date id_date (split_parent_blocks lines) 1 1 =
        Except.ok body ∧
      out = normalize_blank_lines ("" :: "" :: body) := by
  unfold transform_valid_file at h
  split at h
  · simp at h
  · rename_i od id hd
    split at h
    · simp at h
    · rename_i body hp
      simp only [Except.ok.injEq] at h
      exact ⟨od, id, body, hd, hp, h.symm⟩

theorem process_parents_cons_inv (lines : List String) (od id : String)
    (pb : Nat × Nat) (rest : List (Nat × Nat)) (p q : Nat) (out : List String)
    (h : process_parents lines od id (pb :: rest) p q = Except.ok out) :
    ∃ pout rest_out,
      process_parent_block lines od id p q pb = Except.ok pout ∧
      process_parents lines od id rest (p + 1) (q + 1) = Except.ok rest_out ∧
      out = (if 1 < p then [""] else []) ++ pout ++ rest_out := by
  unfold process_parents at h
  split at h
  · simp at h
  · rename_i pout hb
    split at h
    · simp at h
    · rename_i rest_out hr
      simp only [Except.ok.injEq] at h
      exact ⟨pout, rest_out, hb, hr, h.symm⟩

theorem process_parent_block_inv (lines : List String) (od id : String)
    (p q : Nat) (pb : Nat × Nat) (pout : List String)
    (h : process_parent_block lines od id p q pb = Except.ok pout) :
    ∃ mc rest_cbs qa_rel parent_q_lines children_out,
      split_child_blocks lines pb.1 pb.2 = mc :: rest_cbs ∧
      find_first (fun line => strip line == MARKER_QA_SPLIT)
        (child_content_of lines mc) = some qa_rel ∧
      tag_step TAG_Q
        (trim_trailing_blank ((child_content_of lines mc).take qa_rel)) =
        some parent_q_lines ∧
      build_children lines (mc :: rest_cbs) 1 0 = Except.ok children_out ∧
      pout = [MARKER_PARENT, "# 問答ID: " ++ (id ++ "-" ++ pad3 q),
          "- 日付: " ++ od,
          "- 部署: " ++ (extract_department_from_major_question
            ((child_content_of lines mc).take qa_rel)).getD ""] ++
        parent_q_lines ++ [""] ++ children_out := by
  unfold process_parent_block at h
  cases hcb : split_child_blocks lines pb.1 pb.2 with
  | nil => rw [hcb] at h; simp at h
  | cons mc rest_cbs =>
    rw [hcb] at h
    simp only [] at h
    split at h
    · simp at h
    · rename_i qa_rel hff
      split at h
      · simp at h
      · rename_i pql hts
        split at h
        · simp at h
        · rename_i cout hbc
          simp only [Except.ok.injEq] at h
          exact ⟨mc, rest_cbs, qa_rel, pql, cout, rfl, hff, hts, hbc, h.symm⟩

/-! ## Validation emptiness facts -/

theorem split_parent_blocks_ne_of_validate (lines : List String)
    (h : validate_file_structure lines = []) : split_parent_blocks lines ≠ [] := by
  intro hpb
  unfold validate_file_structure at h
  rw [hpb] at h
  simp at h

theorem validate_parts_of_empty (lines : List String)
    (h : validate_file_structure lines = []) :
    validate_marker_lines_are_alone lines = [] ∧
      validate_parents lines 1 (split_parent_blocks lines) = [] := by
  have hpb := split_parent_blocks_ne_of_validate lines h
  unfold validate_file_structure at h
  rw [if_neg (by simpa [List.isEmpty_iff] using hpb)] at h
  exact List.append_eq_nil.mp h

theorem serialize_doc_length_le (l : List String) :
    (serialize_doc l).length ≤ l.length := by
  obtain ⟨t, hl, -⟩ := serialize_doc_decomp l
  conv_rhs => rw [hl]
  rw [List.length_append]
  omega

/-- Any successful parent-block output starts with the `[PARENT]` marker
line. -/
theorem process_parent_block_head (lines : List String) (od id : String)
    (p q : Nat) (pb : Nat × Nat) (pout : List String)
    (h : process_parent_block lines od id p q pb = Except.ok pout) :
    ∃ t, pout = MARKER_PARENT :: t := by
  obtain ⟨mc, rest_cbs, qa_rel, pql, cout, -, -, -, -, hpout⟩ :=
    process_parent_block_inv lines od id p q pb pout h
  exact ⟨_, by rw [hpout]; rfl⟩

/-- Sample input of Scenario A. -/
def sample_input_a : List String := ["[PARENT]", "[CHILD]", "Q1", "[QA_SPLIT]", "A1"]

/-- The structured output the engine produces for `sample_input_a` with file
name `240115_test.txt`. -/
def sample_output_a : List String :=
  ["", "", "[PARENT]", "# 問答ID: 20240115-001", "- 日付: 2024-01-15", "- 部署: ",
   "[Q] Q1", "", "[CHILD]", "## 主要問答", "[Q] Q1", "[A] A1"]

/-- C2: every structured output document produced for a validated input starts
with exactly two blank lines (the third line is non-blank), and no two
consecutive blank lines occur anywhere after that leading pair. -/
theorem output_blank_line_invariant (lines : List String) (filename : String)
    (doc : List String)
    (h : process_single_file lines filename = FileResult.ok_output doc) :
    3 ≤ doc.length ∧
    is_blank_line (getLine doc 0) = true ∧
    is_blank_line (getLine doc 1) = true ∧
    is_non_empty_line (getLine doc 2) = true ∧
    ∀ i, 1 ≤ i → i + 1 < doc.length →
      is_blank_line (getLine doc i) = true →
      is_blank_line (getLine doc (i + 1)) = false := by
  obtain ⟨hval, out, htr, hdoc⟩ := process_single_inv lines filename doc h
  obtain ⟨od, id, body, hdate, hpp, hout⟩ := transform_inv lines filename out htr
  have hpbne := split_parent_blocks_ne_of_validate lines hval
  obtain ⟨pb, rest, hpbs⟩ : ∃ pb rest, split_parent_blocks lines = pb :: rest := by
    cases hc : split_parent_blocks lines with
    | nil => exact absurd hc hpbne
    | cons pb rest => exact ⟨pb, rest, rfl⟩
  rw [hpbs] at hpp
  obtain ⟨pout, rest_out, hppb, -, hbody⟩ :=
    process_parents_cons_inv lines od id pb rest 1 1 body hpp
  obtain ⟨t, hpout⟩ := process_parent_block_head lines od id 1 1 pb pout hppb
  have hbody' : body = MARKER_PARENT :: (t ++ rest_out) := by
    rw [hbody, hpout]
    simp
  -- expand the normalization
  have hM : is_blank_line MARKER_PARENT = false := by decide
  have hout2 : out = "" :: "" :: MARKER_PARENT ::
      normalize_body (t ++ rest_out) false := by
    rw [hout, hbody', normalize_blank_lines, if_neg (by simp)]
    simp only [List.take_cons, List.drop_succ_cons, List.drop_zero]
    rw [normalize_body_cons_keep MARKER_PARENT _ false (by simp), hM]
    rfl
  set NB := normalize_body (t ++ rest_out) false with hNB
  have hg2 : getLine out 2 = MARKER_PARENT := by rw [hout2]; rfl
  have h2lt : 2 < (serialize_doc out).length := by
    apply serialize_doc_length_gt
    rw [hg2]
    decide
  have hd0 : getLine doc 0 = "" := by
    rw [hdoc, serialize_doc_getLine _ _ (by omega), hout2]; rfl
  have hd1 : getLine doc 1 = "" := by
    rw [hdoc, serialize_doc_getLine _ _ (by omega), hout2]; rfl
  have hd2 : getLine doc 2 = MARKER_PARENT := by
    rw [hdoc, serialize_doc_getLine _ _ h2lt, hg2]
  have hdoclen : doc.length = (serialize_doc out).length := by rw [hdoc]
  refine ⟨by omega, by rw [hd0]; decide, by rw [hd1]; decide,
    by rw [hd2]; decide, ?_⟩
  intro i hi1 hi2 hbi
  have hse : ∀ k, k + 1 < doc.length → getLine doc k = getLine out k := by
    intro k hk
    rw [hdoc, serialize_doc_getLine _ _ (by omega)]
  have hgi1 : getLine doc (i + 1) = getLine out (i + 1) := by
    rw [hdoc, serialize_doc_getLine _ _ (by omega)]
  match i, hi1 with
  | 1, _ =>
    rw [hgi1, hg2, hM]
  | (j + 2), _ =>
    rw [hse (j + 2) hi2, hout2] at hbi
    rw [hgi1, hout2]
    have hbi' : is_blank_line (getLine (MARKER_PARENT :: NB) j) = true := by
      rw [← getLine_cons_succ "" _ j, ← getLine_cons_succ "" _ (j + 1)]
      exact hbi
    have hgoal : getLine ("" :: "" :: MARKER_PARENT :: NB) (j + 2 + 1) =
        getLine (MARKER_PARENT :: NB) (j + 1) := rfl
    rw [hgoal]
    have hlen2 : j + 1 < (MARKER_PARENT :: NB).length := by
      have hle := serialize_doc_length_le out
      have : out.length = 3 + NB.length := by rw [hout2]; simp; omega
      rw [hdoclen] at hi2
      simp only [List.length_cons]
      omega
    have : normalize_body ((MARKER_PARENT :: (t ++ rest_out))) false =
        MARKER_PARENT :: NB := by
      rw [normalize_body_cons_keep MARKER_PARENT _ false (by simp), hM]
    rw [← this] at hbi' hlen2 ⊢
    exact normalize_body_no_adjacent _ false j hlen2 hbi'

/-- C2 witness: Scenario A's concrete input/output pair. -/
theorem output_blank_line_invariant_witness :
    process_single_file sample_input_a "240115_test.txt" =
      FileResult.ok_output sample_output_a ∧
    (3 ≤ sample_output_a.length ∧
      is_blank_line (getLine sample_output_a 0) = true ∧
      is_blank_line (getLine sample_output_a 1) = true ∧
      is_non_empty_line (getLine sample_output_a 2) = true ∧
      ∀ i, 1 ≤ i → i + 1 < sample_output_a.length →
        is_blank_line (getLine sample_output_a i) = true →
        is_blank_line (getLine sample_output_a (i + 1)) = false) :=
  ⟨by decide, output_blank_line_invariant sample_input_a "240115_test.txt"
    sample_output_a (by decide)⟩

/-! ## Shape of the parent/child loops -/

theorem blank_sep_join_singleton (s : List String) : blank_sep_join [s] = s := rfl

theorem blank_sep_join_cons_ne (s : List String) (ss : List (List String))
    (h : ss ≠ []) : blank_sep_join (s :: ss) = s ++ [""] ++ blank_sep_join ss := by
  cases ss with
  | nil => exact absurd rfl h
  | cons a t => rfl

theorem nb_lines_blank_sep_join (segs : List (List String)) :
    nb_lines (blank_sep_join segs) = (segs.map nb_lines).flatten := by
  induction segs with
  | nil => rfl
  | cons s ss ih =>
    cases ss with
    | nil => simp [blank_sep_join_singleton, nb_lines]
    | cons a t =>
      rw [blank_sep_join_cons_ne s (a :: t) (by simp)]
      rw [nb_lines_append, nb_lines_append, ih]
      have : nb_lines [""] = [] := by decide
      simp [this]

theorem nb_lines_normalize_head (body : List String) :
    nb_lines (normalize_blank_lines ("" :: "" :: body)) = nb_lines body := by
  unfold normalize_blank_lines
  by_cases hb : ("" :: "" :: body).length ≤ 2
  · have : body = [] := by simpa using hb
    subst this
    rfl
  · rw [if_neg hb]
    simp only [List.take_cons, List.drop_succ_cons, List.drop_zero]
    rw [nb_lines_append, nb_lines_normalize_body]
    have : nb_lines (List.take 1 ("" :: body)) = [] := by
      simp [List.take_cons, nb_lines]
      decide
    simp only [List.take_succ_cons] at *
    rw [show nb_lines ("" :: "" :: List.take 0 body) = [] by
      simp [List.take_zero]; decide]
    rfl

theorem process_parents_shape (lines : List String) (od id : String) :
    ∀ (pbs : List (Nat × Nat)) (p q : Nat) (out : List String), 1 ≤ p →
    process_parents lines od id pbs p q = Except.ok out →
    ∃ segs : List (List String),
      segs.length = pbs.length ∧
      (p = 1 → out = blank_sep_join segs) ∧
      (2 ≤ p → out = if segs.isEmpty then [] else "" :: blank_sep_join segs) ∧
      ∀ k, k < pbs.length →
        process_parent_block lines od id (p + k) (q + k) (pbs.getD k (0, 0)) =
          Except.ok (segs.getD k []) := by
  intro pbs
  induction pbs with
  | nil =>
    intro p q out _ h
    unfold process_parents at h
    simp only [Except.ok.injEq] at h
    exact ⟨[], rfl, fun _ => h.symm, fun _ => by simp [h.symm, blank_sep_join],
      fun k hk => by simp at hk⟩
  | cons pb rest ih =>
    intro p q out hp h
    obtain ⟨pout, rest_out, hppb, hrest, hout⟩ :=
      process_parents_cons_inv lines od id pb rest p q out h
    obtain ⟨segs', hlen', hone', htwo', hidx'⟩ := ih (p + 1) (q + 1) rest_out (by omega) hrest
    have hrest_out : rest_out = if segs'.isEmpty then [] else "" :: blank_sep_join segs' :=
      htwo' (by omega)
    have hjoin : pout ++ rest_out = blank_sep_join (pout :: segs') := by
      by_cases hs : segs' = []
      · subst hs
        simp at hrest_out
        rw [hrest_out, blank_sep_join_singleton, List.append_nil]
      · rw [blank_sep_join_cons_ne pout segs' hs]
        rw [if_neg (by simpa [List.isEmpty_iff] using hs)] at hrest_out
        rw [hrest_out]
        simp
    refine ⟨pout :: segs', by simp [hlen'], ?_, ?_, ?_⟩
    · intro hp
      subst hp
      rw [hout]
      simp only [show ¬ (1 < 1) from by omega, if_false, List.nil_append]
      exact hjoin
    · intro hp
      rw [hout, if_pos (by omega)]
      rw [if_neg (by simp)]
      simpa using hjoin
    · intro k hk
      cases k with
      | zero => simpa using hppb
      | succ k' =>
        have := hidx' k' (by simpa using Nat.lt_of_succ_lt_succ hk)
        have harith1 : p + (k' + 1) = p + 1 + k' := by omega
        have harith2 : q + (k' + 1) = q + 1 + k' := by omega
        rw [harith1, harith2]
        simpa using this

theorem not_blank_of_head_char (pre s : String) (c : Char) (hc : c ∈ pre.toList)
    (hw : c.isWhitespace = false) : is_blank_line (pre ++ s) = false :=
  strip_ne_empty_of_mem
    (show c ∈ (pre ++ s).toList from by
      rw [show (pre ++ s).toList = pre.toList ++ s.toList from rfl]
      exact List.mem_append_left _ hc) hw

theorem getD_map_nb (l : List (List String)) (k : Nat) (hk : k < l.length) :
    (l.map nb_lines).getD k [] = nb_lines (l.getD k []) := by
  simp [List.getD_eq_getElem?_getD, List.getElem?_map, List.getElem?_eq_getElem hk]

/-- The first two non-blank output lines of a parent block are the `[PARENT]`
marker and the record-identifier header. -/
theorem process_parent_block_nb_take2 (lines : List String) (od id : String)
    (p q : Nat) (pb : Nat × Nat) (pout : List String)
    (h : process_parent_block lines od id p q pb = Except.ok pout) :
    (nb_lines pout).take 2 =
      [MARKER_PARENT, "# 問答ID: " ++ (id ++ "-" ++ pad3 q)] := by
  obtain ⟨mc, rest_cbs, qa_rel, pql, cout, -, -, -, -, hpout⟩ :=
    process_parent_block_inv lines od id p q pb pout h
  rw [hpout]
  rw [show ([MARKER_PARENT, "# 問答ID: " ++ (id ++ "-" ++ pad3 q),
      "- 日付: " ++ od,
      "- 部署: " ++ (extract_department_from_major_question
        ((child_content_of lines mc).take qa_rel)).getD ""] ++
      pql ++ [""] ++ cout) =
    MARKER_PARENT :: ("# 問答ID: " ++ (id ++ "-" ++ pad3 q)) ::
      (("- 日付: " ++ od) :: ("- 部署: " ++ (extract_department_from_major_question
        ((child_content_of lines mc).take qa_rel)).getD "") :: (pql ++ [""] ++ cout))
    from by simp]
  rw [nb_lines_cons_non_blank _ _ (by decide),
    nb_lines_cons_non_blank _ _ (not_blank_of_head_char _ _ '#' (by decide) (by decide))]
  simp

/-- C3: for every valid input the i-th parent block (0-based `k`) is emitted
with record identifier `id_date ++ "-" ++ pad3 (1 + k)`: the sequence starts at
1 and increases by exactly one per parent block, and the output's non-blank
lines are the concatenation, in document order, of one segment per parent
block whose first two lines carry the marker and that identifier. -/
theorem record_identifier_sequence (lines : List String) (filename : String)
    (doc : List String)
    (h : process_single_file lines filename = FileResult.ok_output doc) :
    ∃ out_date id_date : String, ∃ segs : List (List String),
      date_from_filename filename = some (out_date, id_date) ∧
      segs.length = (split_parent_blocks lines).length ∧
      nb_lines doc = segs.flatten ∧
      ∀ k, k < segs.length →
        (segs.getD k []).take 2 =
          [MARKER_PARENT, "# 問答ID: " ++ (id_date ++ "-" ++ pad3 (1 + k))] := by
  obtain ⟨hval, out, htr, hdoc⟩ := process_single_inv lines filename doc h
  obtain ⟨od, id, body, hdate, hpp, hout⟩ := transform_inv lines filename out htr
  obtain ⟨rawsegs, hlen, hone, -, hidx⟩ :=
    process_parents_shape lines od id (split_parent_blocks lines) 1 1 body
      (by omega) hpp
  refine ⟨od, id, rawsegs.map nb_lines, hdate, by simpa using hlen, ?_, ?_⟩
  · rw [hdoc, hout, nb_lines_serialize, nb_lines_normalize_head,
      hone rfl, nb_lines_blank_sep_join]
  · intro k hk
    rw [List.length_map] at hk
    rw [getD_map_nb rawsegs k hk]
    have := hidx k (by omega)
    have h2 := process_parent_block_nb_take2 lines od id (1 + k) (1 + k) _ _ this
    exact h2

/-- Sample input of Scenario C/D: two parent blocks, the first with a
`【Finance】` token. -/
def sample_input_c : List String :=
  ["[PARENT]", "[CHILD]", "【Finance】Q1", "[QA_SPLIT]", "A1",
   "[PARENT]", "[CHILD]", "Q2", "[QA_SPLIT]", "A2"]

/-- The structured output for `sample_input_c` with file name
`240115_test.txt`. -/
def sample_output_c : List String :=
  ["", "", "[PARENT]", "# 問答ID: 20240115-001", "- 日付: 2024-01-15",
   "- 部署: Finance", "[Q] 【Finance】Q1", "", "[CHILD]", "## 主要問答",
   "[Q] 【Finance】Q1", "[A] A1", "", "[PARENT]", "# 問答ID: 20240115-002",
   "- 日付: 2024-01-15", "- 部署: ", "[Q] Q2", "", "[CHILD]", "## 主要問答",
   "[Q] Q2", "[A] A2"]

/-- C3 witness: Scenario C's two parent blocks receive `20240115-001` and
`20240115-002`. -/
theorem record_identifier_sequence_witness :
    process_single_file sample_input_c "240115_test.txt" =
      FileResult.ok_output sample_output_c ∧
    (∃ out_date id_date : String, ∃ segs : List (List String),
      date_from_filename "240115_test.txt" = some (out_date, id_date) ∧
      segs.length = (split_parent_blocks sample_input_c).length ∧
      nb_lines sample_output_c = segs.flatten ∧
      ∀ k, k < segs.length →
        (segs.getD k []).take 2 =
          [MARKER_PARENT, "# 問答ID: " ++ (id_date ++ "-" ++ pad3 (1 + k))]) :=
  ⟨by decide, record_identifier_sequence sample_input_c "240115_test.txt"
    sample_output_c (by decide)⟩

/-! ## Shape of the child loop and of a built child block -/

theorem build_children_cons_inv (lines : List String) (cb : Nat × Nat)
    (rest : List (Nat × Nat)) (c f : Nat) (out : List String)
    (h : build_children lines (cb :: rest) c f = Except.ok out) :
    ∃ child_out rest_out,
      build_child_output_lines (child_content_of lines cb) (c == 1)
        (if c == 1 then none else some (f + 1)) = Except.ok child_out ∧
      build_children lines rest (c + 1) (if c == 1 then f else f + 1) =
        Except.ok rest_out ∧
      out = child_out ++ (if rest.isEmpty then [] else [""]) ++ rest_out := by
  unfold build_children at h
  simp only [] at h
  by_cases hc : (c == 1) = true
  · rw [hc] at h ⊢
    simp only [if_true] at h ⊢
    split at h
    · simp at h
    · rename_i child_out hbo
      split at h
      · simp at h
      · rename_i rest_out hbr
        simp only [Except.ok.injEq] at h
        exact ⟨child_out, rest_out, hbo, hbr, h.symm⟩
  · rw [Bool.not_eq_true] at hc
    rw [hc] at h ⊢
    simp only [if_false, Bool.false_eq_true] at h ⊢
    split at h
    · simp at h
    · rename_i child_out hbo
      split at h
      · simp at h
      · rename_i rest_out hbr
        simp only [Except.ok.injEq] at h
        exact ⟨child_out, rest_out, hbo, hbr, h.symm⟩

theorem build_children_shape_ge2 (lines : List String) :
    ∀ (cbs : List (Nat × Nat)) (c f : Nat) (out : List String), 2 ≤ c →
    build_children lines cbs c f = Except.ok out →
    ∃ segs : List (List String),
      segs.length = cbs.length ∧ out = blank_sep_join segs ∧
      ∀ j, j < cbs.length →
        build_child_output_lines (child_content_of lines (cbs.getD j (0, 0)))
          false (some (f + j + 1)) = Except.ok (segs.getD j []) := by
  intro cbs
  induction cbs with
  | nil =>
    intro c f out _ h
    unfold build_children at h
    simp only [Except.ok.injEq] at h
    exact ⟨[], rfl, h.symm, fun j hj => by simp at hj⟩
  | cons cb rest ih =>
    intro c f out hc h
    obtain ⟨child_out, rest_out, hbo, hbr, hout⟩ :=
      build_children_cons_inv lines cb rest c f out h
    have hcne : (c == 1) = false := by
      rw [beq_eq_false_iff_ne]
      omega
    rw [hcne] at hbo hbr
    simp only [Bool.false_eq_true, if_false] at hbo hbr
    obtain ⟨segs', hlen', hjoin', hidx'⟩ := ih (c + 1) (f + 1) rest_out (by omega) hbr
    have hjoin : out = blank_sep_join (child_out :: segs') := by
      rw [hout]
      by_cases hr : rest = []
      · subst hr
        have : segs' = [] := List.length_eq_zero.mp (by simpa using hlen')
        subst this
        simp [blank_sep_join_singleton, hjoin', blank_sep_join]
      · have hs : segs' ≠ [] := by
          intro hcon
          rw [hcon] at hlen'
          exact hr (List.length_eq_zero.mp (by simpa using hlen'.symm))
        rw [blank_sep_join_cons_ne _ _ hs, ← hjoin']
        simp [List.isEmpty_iff, hr]
    refine ⟨child_out :: segs', by simpa using hlen', hjoin, ?_⟩
    intro j hj
    cases j with
    | zero => simpa using hbo
    | succ m =>
      have := hidx' m (by simpa using Nat.lt_of_succ_lt_succ hj)
      have harith : f + (m + 1) + 1 = f + 1 + m + 1 := by omega
      rw [harith]
      simpa using this

theorem build_children_shape (lines : List String) (cbs : List (Nat × Nat))
    (out : List String) (h : build_children lines cbs 1 0 = Except.ok out) :
    ∃ segs : List (List String),
      segs.length = cbs.length ∧ out = blank_sep_join segs ∧
      ∀ j, j < cbs.length →
        build_child_output_lines (child_content_of lines (cbs.getD j (0, 0)))
          (j == 0) (if j == 0 then none else some j) = Except.ok (segs.getD j []) := by
  cases cbs with
  | nil =>
    unfold build_children at h
    simp only [Except.ok.injEq] at h
    exact ⟨[], rfl, h.symm, fun j hj => by simp at hj⟩
  | cons cb rest =>
    obtain ⟨child_out, rest_out, hbo, hbr, hout⟩ :=
      build_children_cons_inv lines cb rest 1 0 out h
    simp only [beq_self_eq_true, if_true] at hbo hbr
    obtain ⟨segs', hlen', hjoin', hidx'⟩ :=
      build_children_shape_ge2 lines rest 2 0 rest_out (by omega) hbr
    have hjoin : out = blank_sep_join (child_out :: segs') := by
      rw [hout]
      by_cases hr : rest = []
      · subst hr
        have : segs' = [] := List.length_eq_zero.mp (by simpa using hlen')
        subst this
        simp [blank_sep_join_singleton, hjoin', blank_sep_join]
      · have hs : segs' ≠ [] := by
          intro hcon
          rw [hcon] at hlen'
          exact hr (List.length_eq_zero.mp (by simpa using hlen'.symm))
        rw [blank_sep_join_cons_ne _ _ hs, ← hjoin']
        simp [List.isEmpty_iff, hr]
    refine ⟨child_out :: segs', by simpa using hlen', hjoin, ?_⟩
    intro j hj
    cases j with
    | zero => simpa using hbo
    | succ m =>
      have := hidx' m (by simpa using Nat.lt_of_succ_lt_succ hj)
      simpa using this

theorem build_child_ok_inv (content : List String) (b : Bool) (fn : Option Nat)
    (o : List String) (h : build_child_output_lines content b fn = Except.ok o) :
    ∃ qa_rel question_tagged answer_tagged,
      find_first (fun line => strip line == MARKER_QA_SPLIT) content = some qa_rel ∧
      tag_step TAG_Q (trim_trailing_blank (content.take qa_rel)) =
        some question_tagged ∧
      tag_step TAG_A (trim_leading_blank (content.drop (qa_rel + 1))) =
        some answer_tagged ∧
      o = trim_trailing_blank ([MARKER_CHILD] ++
        (if b then ["## 主要問答"] else ["## 更問" ++ optNatToString fn]) ++
        question_tagged ++ answer_tagged) := by
  cases b with
  | true =>
    unfold build_child_output_lines at h
    simp only [if_true] at h ⊢
    split at h
    · simp at h
    · rename_i qa_rel hff
      split at h
      · simp at h
      · rename_i qt hq
        split at h
        · simp at h
        · rename_i as_ ha
          split at h
          · simp at h
          · split at h
            · split at h
              · simp at h
              · simp only [Except.ok.injEq] at h
                exact ⟨qa_rel, qt, as_, hff, hq, ha, by rw [← h]⟩
            · simp at h
  | false =>
    unfold build_child_output_lines at h
    simp only [Bool.false_eq_true, if_false] at h ⊢
    split at h
    · simp at h
    · rename_i qa_rel hff
      split at h
      · simp at h
      · rename_i qt hq
        split at h
        · simp at h
        · rename_i as_ ha
          split at h
          · simp at h
          · split at h
            · split at h
              · simp at h
              · simp only [Except.ok.injEq] at h
                exact ⟨qa_rel, qt, as_, hff, hq, ha, by rw [← h]⟩
            · simp at h

theorem build_child_nb_take2 (content : List String) (b : Bool) (fn : Option Nat)
    (o : List String) (h : build_child_output_lines content b fn = Except.ok o) :
    (nb_lines o).take 2 =
      [MARKER_CHILD, if b then "## 主要問答" else "## 更問" ++ optNatToString fn] := by
  obtain ⟨qa_rel, qt, as_, -, -, -, ho⟩ := build_child_ok_inv content b fn o h
  rw [ho, nb_lines_trim_trailing]
  have htitle : is_blank_line
      (if b then "## 主要問答" else "## 更問" ++ optNatToString fn) = false := by
    cases b with
    | true => rw [if_pos rfl]; decide
    | false =>
      rw [if_neg (by simp)]
      exact not_blank_of_head_char "## 更問" (optNatToString fn) '#' (by decide) (by decide)
  rw [show ([MARKER_CHILD] ++
      (if b then ["## 主要問答"] else ["## 更問" ++ optNatToString fn]) ++ qt ++ as_) =
      MARKER_CHILD :: (if b then "## 主要問答" else "## 更問" ++ optNatToString fn) ::
        (qt ++ as_) from by cases b <;> simp]
  rw [nb_lines_cons_non_blank _ _ (by decide), nb_lines_cons_non_blank _ _ htitle]
  simp

/-- C7: the output's non-blank lines decompose, in input order, into one
segment per parent block; inside each, after the parent header, one sub-block
per child block follows in input order, the first (primary) titled
`## 主要問答` and the j-th follow-up titled `## 更問j` with j counting
consecutively from 1. -/
theorem output_ordering (lines : List String) (filename : String)
    (doc : List String)
    (h : process_single_file lines filename = FileResult.ok_output doc) :
    ∃ psegs : List (List String),
      psegs.length = (split_parent_blocks lines).length ∧
      nb_lines doc = psegs.flatten ∧
      ∀ k, k < psegs.length →
        ∃ parent_header : List String, ∃ csegs : List (List String),
          csegs.length = (split_child_blocks lines
            ((split_parent_blocks lines).getD k (0, 0)).1
            ((split_parent_blocks lines).getD k (0, 0)).2).length ∧
          1 ≤ csegs.length ∧
          psegs.getD k [] = parent_header ++ csegs.flatten ∧
          ∀ j, j < csegs.length →
            (csegs.getD j []).take 2 =
              [MARKER_CHILD,
                if j = 0 then "## 主要問答" else "## 更問" ++ toString j] := by
  obtain ⟨hval, out, htr, hdoc⟩ := process_single_inv lines filename doc h
  obtain ⟨od, id, body, hdate, hpp, hout⟩ := transform_inv lines filename out htr
  obtain ⟨rawsegs, hlen, hone, -, hidx⟩ :=
    process_parents_shape lines od id (split_parent_blocks lines) 1 1 body
      (by omega) hpp
  refine ⟨rawsegs.map nb_lines, by simpa using hlen, ?_, ?_⟩
  · rw [hdoc, hout, nb_lines_serialize, nb_lines_normalize_head,
      hone rfl, nb_lines_blank_sep_join]
  · intro k hk
    rw [List.length_map] at hk
    rw [getD_map_nb rawsegs k hk]
    have hppb := hidx k (by omega)
    obtain ⟨mc, rest_cbs, qa_rel, pql, cout, hcbs, -, -, hbc, hpout⟩ :=
      process_parent_block_inv lines od id (1 + k) (1 + k) _ _ hppb
    obtain ⟨rawcsegs, hclen, hcout, hcidx⟩ := build_children_shape lines _ cout hbc
    refine ⟨nb_lines ([MARKER_PARENT, "# 問答ID: " ++ (id ++ "-" ++ pad3 (1 + k)),
        "- 日付: " ++ od,
        "- 部署: " ++ (extract_department_from_major_question
          ((child_content_of lines mc).take qa_rel)).getD ""] ++ pql),
      rawcsegs.map nb_lines, ?_, ?_, ?_, ?_⟩
    · rw [List.length_map, hclen, hcbs]
    · rw [List.length_map, hclen]
      simp
    · rw [hpout]
      rw [show ([MARKER_PARENT, "# 問答ID: " ++ (id ++ "-" ++ pad3 (1 + k)),
          "- 日付: " ++ od,
          "- 部署: " ++ (extract_department_from_major_question
            ((child_content_of lines mc).take qa_rel)).getD ""] ++
          pql ++ [""] ++ cout) =
        ([MARKER_PARENT, "# 問答ID: " ++ (id ++ "-" ++ pad3 (1 + k)),
          "- 日付: " ++ od,
          "- 部署: " ++ (extract_department_from_major_question
            ((child_content_of lines mc).take qa_rel)).getD ""] ++ pql) ++
          ([""] ++ cout) from by simp]
      simp only [nb_lines_append]
      rw [show nb_lines [""] = [] from by decide]
      rw [hcout, nb_lines_blank_sep_join]
      simp
    · intro j hj
      rw [List.length_map] at hj
      rw [getD_map_nb rawcsegs j hj]
      rw [hclen] at hj
      have hbuild := hcidx j hj
      have h2 := build_child_nb_take2 _ _ _ _ hbuild
      cases j with
      | zero => simpa using h2
      | succ m =>
        rw [h2]
        have hne : ((m + 1 == 0) : Bool) = false := rfl
        simp only [hne, Bool.false_eq_true, if_false]
        rfl

/-- Sample input with one parent block holding a primary child and one
follow-up child. -/
def sample_input_e : List String :=
  ["[PARENT]", "[CHILD]", "Q1", "[QA_SPLIT]", "A1",
   "[CHILD]", "Q2", "[QA_SPLIT]", "A2"]

/-- The structured output for `sample_input_e` with file name
`240115_test.txt`. -/
def sample_output_e : List String :=
  ["", "", "[PARENT]", "# 問答ID: 20240115-001", "- 日付: 2024-01-15", "- 部署: ",
   "[Q] Q1", "", "[CHILD]", "## 主要問答", "[Q] Q1", "[A] A1", "",
   "[CHILD]", "## 更問1", "[Q] Q2", "[A] A2"]

/-- C7 witness: a parent with a primary and one follow-up child. -/
theorem output_ordering_witness :
    process_single_file sample_input_e "240115_test.txt" =
      FileResult.ok_output sample_output_e ∧
    (∃ psegs : List (List String),
      psegs.length = (split_parent_blocks sample_input_e).length ∧
      nb_lines sample_output_e = psegs.flatten ∧
      ∀ k, k < psegs.length →
        ∃ parent_header : List String, ∃ csegs : List (List String),
          csegs.length = (split_child_blocks sample_input_e
            ((split_parent_blocks sample_input_e).getD k (0, 0)).1
            ((split_parent_blocks sample_input_e).getD k (0, 0)).2).length ∧
          1 ≤ csegs.length ∧
          psegs.getD k [] = parent_header ++ csegs.flatten ∧
          ∀ j, j < csegs.length →
            (csegs.getD j []).take 2 =
              [MARKER_CHILD,
                if j = 0 then "## 主要問答" else "## 更問" ++ toString j]) :=
  ⟨by decide, output_ordering sample_input_e "240115_test.txt"
    sample_output_e (by decide)⟩

/-! ## Department extraction facts -/

/-- `find_bracket_token` returns the text between the first `【` that has a
closing `】` and that first following `】`. -/
theorem find_bracket_token_spec (a t b : List Char)
    (ha : '【' ∉ a) (ht : '】' ∉ t) :
    find_bracket_token (a ++ '【' :: (t ++ '】' :: b)) = some t := by
  induction a with
  | nil =>
    rw [List.nil_append]
    show (if ('【' : Char) = '【' then _ else _) = _
    rw [if_pos rfl]
    have htake : (t ++ '】' :: b).takeWhile (fun d => !(d = '】')) = t := by
      induction t with
      | nil => simp [List.takeWhile_cons]
      | cons c cs ih =>
        have hc : ¬ c = '】' := fun hcon => ht (by rw [hcon]; simp)
        rw [List.cons_append, List.takeWhile_cons, if_pos (by simp [hc])]
        rw [ih (fun hmem => ht (List.mem_cons_of_mem c hmem))]
    rw [htake]
    rw [if_neg (show ¬ (t.length = (t ++ '】' :: b).length) from by
      rw [List.length_append]
      simp)]
  | cons c cs ih =>
    have hc : ¬ c = '【' := fun hcon => ha (by rw [hcon]; simp)
    rw [List.cons_append, find_bracket_token]
    rw [if_neg hc]
    exact ih (fun hmem => ha (List.mem_cons_of_mem c hmem))

/-- `extract_department_from_major_question` uses the first line on which the
bracket pattern matches. -/
theorem extract_department_first_line (pre : List String) (line : String)
    (post : List String) (t : List Char)
    (hpre : ∀ l ∈ pre, find_bracket_token l.toList = none)
    (hline : find_bracket_token line.toList = some t) :
    extract_department_from_major_question (pre ++ line :: post) =
      some (String.mk t) := by
  induction pre with
  | nil =>
    rw [List.nil_append]
    unfold extract_department_from_major_question
    rw [hline]
  | cons l rest ih =>
    rw [List.cons_append]
    unfold extract_department_from_major_question
    rw [hpre l (List.mem_cons_self l rest)]
    exact ih (fun x hx => hpre x (List.mem_cons_of_mem l hx))

/-- The first four non-blank output lines of a parent block: marker, record
id, date, and the department extracted from the primary child's question
segment (empty string when absent). -/
theorem process_parent_block_nb_take4 (lines : List String) (od id : String)
    (p q : Nat) (pb : Nat × Nat) (pout : List String)
    (h : process_parent_block lines od id p q pb = Except.ok pout) :
    ∃ mc rest_cbs qa_rel,
      split_child_blocks lines pb.1 pb.2 = mc :: rest_cbs ∧
      find_first (fun line => strip line == MARKER_QA_SPLIT)
        (child_content_of lines mc) = some qa_rel ∧
      (nb_lines pout).take 4 =
        [MARKER_PARENT, "# 問答ID: " ++ (id ++ "-" ++ pad3 q),
         "- 日付: " ++ od,
         "- 部署: " ++ (extract_department_from_major_question
           ((child_content_of lines mc).take qa_rel)).getD ""] := by
  obtain ⟨mc, rest_cbs, qa_rel, pql, cout, hcbs, hff, -, -, hpout⟩ :=
    process_parent_block_inv lines od id p q pb pout h
  refine ⟨mc, rest_cbs, qa_rel, hcbs, hff, ?_⟩
  rw [hpout]
  rw [show ([MARKER_PARENT, "# 問答ID: " ++ (id ++ "-" ++ pad3 q),
      "- 日付: " ++ od,
      "- 部署: " ++ (extract_department_from_major_question
        ((child_content_of lines mc).take qa_rel)).getD ""] ++
      pql ++ [""] ++ cout) =
    MARKER_PARENT :: ("# 問答ID: " ++ (id ++ "-" ++ pad3 q)) ::
      ("- 日付: " ++ od) :: ("- 部署: " ++ (extract_department_from_major_question
        ((child_content_of lines mc).take qa_rel)).getD "") ::
      (pql ++ [""] ++ cout) from by simp]
  rw [nb_lines_cons_non_blank _ _ (by decide),
    nb_lines_cons_non_blank _ _ (not_blank_of_head_char _ _ '#' (by decide) (by decide)),
    nb_lines_cons_non_blank _ _ (not_blank_of_head_char _ _ '-' (by decide) (by decide)),
    nb_lines_cons_non_blank _ _ (not_blank_of_head_char _ _ '-' (by decide) (by decide))]
  simp

/-- C9: each parent header's department line carries the text of the first
full-width bracket pair found in the primary child block's question segment,
or the empty string when no bracketed token exists (no error in that case);
`find_bracket_token` indeed returns the first bracket pair's contents. -/
theorem department_extraction :
    (∀ (lines : List String) (filename : String) (doc : List String),
      process_single_file lines filename = FileResult.ok_output doc →
      ∃ out_date id_date : String, ∃ segs : List (List String),
        date_from_filename filename = some (out_date, id_date) ∧
        segs.length = (split_parent_blocks lines).length ∧
        nb_lines doc = segs.flatten ∧
        ∀ k, k < segs.length →
          ∃ mc : Nat × Nat, ∃ rest_cbs : List (Nat × Nat), ∃ qa_rel : Nat,
            split_child_blocks lines
              ((split_parent_blocks lines).getD k (0, 0)).1
              ((split_parent_blocks lines).getD k (0, 0)).2 = mc :: rest_cbs ∧
            find_first (fun line => strip line == MARKER_QA_SPLIT)
              (child_content_of lines mc) = some qa_rel ∧
            (segs.getD k []).take 4 =
              [MARKER_PARENT, "# 問答ID: " ++ (id_date ++ "-" ++ pad3 (1 + k)),
               "- 日付: " ++ out_date,
               "- 部署: " ++ (extract_department_from_major_question
                 ((child_content_of lines mc).take qa_rel)).getD ""]) ∧
    (∀ (a t b : List Char), '【' ∉ a → '】' ∉ t →
      find_bracket_token (a ++ '【' :: (t ++ '】' :: b)) = some t) ∧
    (∀ question_lines : List String,
      extract_department_from_major_question question_lines = none →
      (extract_department_from_major_question question_lines).getD "" = "") := by
  refine ⟨?_, find_bracket_token_spec, ?_⟩
  · intro lines filename doc h
    obtain ⟨hval, out, htr, hdoc⟩ := process_single_inv lines filename doc h
    obtain ⟨od, id, body, hdate, hpp, hout⟩ := transform_inv lines filename out htr
    obtain ⟨rawsegs, hlen, hone, -, hidx⟩ :=
      process_parents_shape lines od id (split_parent_blocks lines) 1 1 body
        (by omega) hpp
    refine ⟨od, id, rawsegs.map nb_lines, hdate, by simpa using hlen, ?_, ?_⟩
    · rw [hdoc, hout, nb_lines_serialize, nb_lines_normalize_head,
        hone rfl, nb_lines_blank_sep_join]
    · intro k hk
      rw [List.length_map] at hk
      rw [getD_map_nb rawsegs k hk]
      have hppb := hidx k (by omega)
      obtain ⟨mc, rest_cbs, qa_rel, hcbs, hff, htake⟩ :=
        process_parent_block_nb_take4 lines od id (1 + k) (1 + k) _ _ hppb
      exact ⟨mc, rest_cbs, qa_rel, hcbs, hff, htake⟩
  · intro qls hnone
    rw [hnone]
    rfl

/-- C9 witness: Scenario D — `【Finance】` yields department `Finance` on the
first parent block and its bracket-less sibling yields the empty string. -/
theorem department_extraction_witness :
    process_single_file sample_input_c "240115_test.txt" =
      FileResult.ok_output sample_output_c ∧
    extract_department_from_major_question ["【Finance】Q1"] = some "Finance" ∧
    extract_department_from_major_question ["Q2"] = none ∧
    getLine sample_output_c 5 = "- 部署: Finance" ∧
    getLine sample_output_c 16 = "- 部署: " ∧
    find_bracket_token ([] ++ '【' :: (['F'] ++ '】' :: [])) = some ['F'] ∧
    (∃ out_date id_date : String, ∃ segs : List (List String),
      date_from_filename "240115_test.txt" = some (out_date, id_date) ∧
      segs.length = (split_parent_blocks sample_input_c).length ∧
      nb_lines sample_output_c = segs.flatten ∧
      ∀ k, k < segs.length →
        ∃ mc : Nat × Nat, ∃ rest_cbs : List (Nat × Nat), ∃ qa_rel : Nat,
          split_child_blocks sample_input_c
            ((split_parent_blocks sample_input_c).getD k (0, 0)).1
            ((split_parent_blocks sample_input_c).getD k (0, 0)).2 = mc :: rest_cbs ∧
          find_first (fun line => strip line == MARKER_QA_SPLIT)
            (child_content_of sample_input_c mc) = some qa_rel ∧
          (segs.getD k []).take 4 =
            [MARKER_PARENT, "# 問答ID: " ++ (id_date ++ "-" ++ pad3 (1 + k)),
             "- 日付: " ++ out_date,
             "- 部署: " ++ (extract_department_from_major_question
               ((child_content_of sample_input_c mc).take qa_rel)).getD ""]) :=
  ⟨by decide, by decide, by decide, by decide, by decide,
    department_extraction.2.1 [] ['F'] [] (by decide) (by decide),
    department_extraction.1 sample_input_c "240115_test.txt"
      sample_output_c (by decide)⟩

/-! ## Idempotence of the tagging step (C8) -/

theorem getLine_set_self (l : List String) (i : Nat) (a : String)
    (h : i < l.length) : getLine (l.set i a) i = a := by
  simp [getLine, List.getD_eq_getElem?_getD, List.getElem?_set_self h]

theorem getLine_set_ne (l : List String) (i j : Nat) (a : String)
    (h : j ≠ i) : getLine (l.set i a) j = getLine l j := by
  simp [getLine, List.getD_eq_getElem?_getD, List.getElem?_set_ne (Ne.symm h)]

theorem set_getLine_self (l : List String) (i : Nat) :
    l.set i (getLine l i) = l := by
  apply List.ext_getElem?
  intro n
  by_cases hn : n = i
  · subst hn
    by_cases hlt : n < l.length
    · rw [List.getElem?_set_self hlt]
      simp [getLine, List.getD_eq_getElem?_getD, List.getElem?_eq_getElem hlt]
    · rw [List.set_eq_of_length_le (by omega)]
  · rw [List.getElem?_set_ne (Ne.symm hn)]

theorem tag_step_some_spec (tag : String) (part part' : List String)
    (h : tag_step tag part = some part') :
    ∃ i, next_non_empty_index part 0 = some i ∧
      part' = part.set i (tag_line tag (getLine part i)) := by
  unfold tag_step at h
  split at h
  · simp at h
  · rename_i i hi
    simp only [Option.some.injEq] at h
    exact ⟨i, hi, h.symm⟩

/-- Idempotence of one tagging pass, provided tagged lines are never blank
(true for both `TAG_Q` and `TAG_A`). -/
theorem tag_step_idem (tag : String)
    (hw : ∀ l, starts_with l tag = true → is_blank_line l = false)
    (part part' : List String) (h : tag_step tag part = some part') :
    tag_step tag part' = some part' := by
  obtain ⟨i, hi, hset⟩ := tag_step_some_spec tag part part' h
  obtain ⟨-, hlt, hne, hblanks⟩ := next_non_empty_some part 0 i hi
  have hlen : part'.length = part.length := by rw [hset, List.length_set]
  have hgi : getLine part' i = tag_line tag (getLine part i) := by
    rw [hset]
    exact getLine_set_self part i _ hlt
  have htagged : starts_with (getLine part' i) tag = true := by
    rw [hgi]
    exact starts_with_tag_line tag _
  have hnn : next_non_empty_index part' 0 = some i := by
    apply next_non_empty_intro part' 0 i (Nat.zero_le i) (by omega)
    · have hnb := hw (getLine part' i) htagged
      simp only [is_non_empty_line, is_blank_line] at hnb ⊢
      rw [hnb]
      rfl
    · intro j _ hj
      rw [hset, getLine_set_ne part i j _ (by omega)]
      exact hblanks j (Nat.zero_le j) hj
  unfold tag_step
  rw [hnn]
  show some (part'.set i (tag_line tag (getLine part' i))) = some part'
  rw [tag_line_of_starts tag _ htagged, set_getLine_self]

/-- C8: the question/answer tagging is idempotent — an already tagged line is
left unchanged, and re-running the whole tagging step on a part it has
already tagged changes nothing, for both the question and the answer tag. -/
theorem tagging_idempotent :
    (∀ line, starts_with line TAG_Q = true → tag_line TAG_Q line = line) ∧
    (∀ line, starts_with line TAG_A = true → tag_line TAG_A line = line) ∧
    (∀ part part', tag_step TAG_Q part = some part' →
      tag_step TAG_Q part' = some part') ∧
    (∀ part part', tag_step TAG_A part = some part' →
      tag_step TAG_A part' = some part') :=
  ⟨fun line h => tag_line_of_starts TAG_Q line h,
   fun line h => tag_line_of_starts TAG_A line h,
   tag_step_idem TAG_Q (fun _ h => not_blank_of_starts_tag_q h),
   tag_step_idem TAG_A (fun _ h => not_blank_of_starts_tag_a h)⟩

/-- C8 witness: concrete already-tagged lines and parts are left unchanged. -/
theorem tagging_idempotent_witness :
    starts_with "[Q] Q1" TAG_Q = true ∧
    tag_line TAG_Q "[Q] Q1" = "[Q] Q1" ∧
    starts_with "[A] A1" TAG_A = true ∧
    tag_line TAG_A "[A] A1" = "[A] A1" ∧
    tag_step TAG_Q ["", "Q1"] = some ["", "[Q] Q1"] ∧
    tag_step TAG_Q ["", "[Q] Q1"] = some ["", "[Q] Q1"] ∧
    tag_step TAG_A ["A1"] = some ["[A] A1"] ∧
    tag_step TAG_A ["[A] A1"] = some ["[A] A1"] :=
  ⟨by decide, tagging_idempotent.1 "[Q] Q1" (by decide), by decide,
   tagging_idempotent.2.1 "[A] A1" (by decide), by decide,
   tagging_idempotent.2.2.1 ["", "Q1"] ["", "[Q] Q1"] (by decide), by decide,
   tagging_idempotent.2.2.2 ["A1"] ["[A] A1"] (by decide)⟩

/-! ## Date derivation (C4) -/

/-- C4 counterexample: `"240115.txt"` starts with six digits forming the valid
calendar date 2024-01-15, yet date derivation fails because the seventh
character is not an underscore. -/
theorem date_from_filename_cex :
    ("240115.txt".toList.take 6).all Char.isDigit = true ∧
    valid_date 2024 1 15 = true ∧
    date_from_filename "240115.txt" = none := by decide

/-- C4 (amended): date derivation succeeds exactly on filenames whose first
six characters are digits followed by an underscore and forming a valid
calendar date in year 2000+yy, producing `YYYY-MM-DD` and `YYYYMMDD`; any
filename not matching the leading `\d{6}_` pattern fails. -/
theorem date_from_filename_characterization :
    (∀ name : String, matches_yymmdd_prefix name.toList = false →
      date_from_filename name = none) ∧
    (∀ (c1 c2 c3 c4 c5 c6 : Char) (rest : List Char),
      c1.isDigit = true → c2.isDigit = true → c3.isDigit = true →
      c4.isDigit = true → c5.isDigit = true → c6.isDigit = true →
      valid_date (2000 + two_digit_val c1 c2) (two_digit_val c3 c4)
        (two_digit_val c5 c6) = true →
      date_from_filename
          (String.mk (c1 :: c2 :: c3 :: c4 :: c5 :: c6 :: '_' :: rest)) =
        some (pad4 (2000 + two_digit_val c1 c2) ++ "-" ++
                pad2 (two_digit_val c3 c4) ++ "-" ++ pad2 (two_digit_val c5 c6),
              pad4 (2000 + two_digit_val c1 c2) ++
                pad2 (two_digit_val c3 c4) ++ pad2 (two_digit_val c5 c6))) ∧
    date_from_filename "240115_test.txt" = some ("2024-01-15", "20240115") := by
  refine ⟨?_, ?_, by decide⟩
  · intro name hm
    obtain ⟨cs⟩ := name
    unfold date_from_filename
    match cs, hm with
    | [], _ => rfl
    | [c1], _ => rfl
    | [c1, c2], _ => rfl
    | [c1, c2, c3], _ => rfl
    | [c1, c2, c3, c4], _ => rfl
    | [c1, c2, c3, c4, c5], _ => rfl
    | [c1, c2, c3, c4, c5, c6], _ => rfl
    | c1 :: c2 :: c3 :: c4 :: c5 :: c6 :: c7 :: rest, hm =>
      have hm2 : (c1.isDigit && c2.isDigit && c3.isDigit && c4.isDigit &&
          c5.isDigit && c6.isDigit && c7 == '_') = false := hm
      show (if c1.isDigit && c2.isDigit && c3.isDigit && c4.isDigit &&
          c5.isDigit && c6.isDigit && c7 == '_' then _ else none) = none
      rw [if_neg (by rw [hm2]; exact Bool.false_ne_true)]
  · intro c1 c2 c3 c4 c5 c6 rest h1 h2 h3 h4 h5 h6 hv
    unfold date_from_filename
    show (if c1.isDigit && c2.isDigit && c3.isDigit && c4.isDigit &&
        c5.isDigit && c6.isDigit && ('_' == '_') then _ else none) = _
    rw [if_pos (by rw [h1, h2, h3, h4, h5, h6]; rfl)]
    simp only [hv, if_true]

/-- C4 witness: the amended success case at `240115_test.txt`. -/
theorem date_from_filename_characterization_witness :
    (('2' : Char).isDigit = true ∧ ('4' : Char).isDigit = true ∧
      ('0' : Char).isDigit = true ∧ ('1' : Char).isDigit = true ∧
      ('1' : Char).isDigit = true ∧ ('5' : Char).isDigit = true ∧
      valid_date (2000 + two_digit_val '2' '4') (two_digit_val '0' '1')
        (two_digit_val '1' '5') = true) ∧
    date_from_filename
        (String.mk ('2' :: '4' :: '0' :: '1' :: '1' :: '5' :: '_' ::
          "test.txt".toList)) =
      some (pad4 (2000 + two_digit_val '2' '4') ++ "-" ++
              pad2 (two_digit_val '0' '1') ++ "-" ++ pad2 (two_digit_val '1' '5'),
            pad4 (2000 + two_digit_val '2' '4') ++
              pad2 (two_digit_val '0' '1') ++ pad2 (two_digit_val '1' '5')) :=
  ⟨by decide, date_from_filename_characterization.2.1 '2' '4' '0' '1' '1' '5'
    "test.txt".toList (by decide) (by decide) (by decide) (by decide)
    (by decide) (by decide) (by decide)⟩

/-! ## Zero-parent halt (C6) -/

theorem parent_indices_nil (lines : List String)
    (h : ∀ l ∈ lines, (strip l == MARKER_PARENT) = false) :
    parent_indices lines = [] := by
  unfold parent_indices
  rw [List.filter_eq_nil_iff]
  intro i hi
  rw [List.mem_range] at hi
  simp only [Bool.not_eq_true]
  exact h _ (getLine_mem lines i hi)

/-- C6: a document with no `[PARENT]` marker line yields exactly the
marker-alone errors followed by the single zero-parents violation (validation
halts there: no child or divider check contributes), and the file produces a
diagnostic document, never a structured one. -/
theorem zero_parent_halts (lines : List String)
    (h : ∀ l ∈ lines, (strip l == MARKER_PARENT) = false) :
    validate_file_structure lines =
      validate_marker_lines_are_alone lines ++ ["[PARENT] が1つもありません。"] ∧
    ∀ filename, process_single_file lines filename =
      FileResult.error_output
        (serialize_doc (["", "", "ERROR: 入力ファイルの構造が不正です。"] ++
          (validate_file_structure lines).map fun e => "- " ++ e))
        (join_sep " / " (validate_file_structure lines)) := by
  have hpi : split_parent_blocks lines = [] := by
    unfold split_parent_blocks
    rw [parent_indices_nil lines h]
    rfl
  have hval : validate_file_structure lines =
      validate_marker_lines_are_alone lines ++ ["[PARENT] が1つもありません。"] := by
    unfold validate_file_structure
    rw [hpi]
    rfl
  refine ⟨hval, ?_⟩
  intro filename
  unfold process_single_file
  rw [if_neg]
  rw [hval]
  simp

/-- C6 witness: a document with no markers at all. -/
theorem zero_parent_halts_witness :
    validate_file_structure ["hello"] =
      validate_marker_lines_are_alone ["hello"] ++ ["[PARENT] が1つもありません。"] ∧
    process_single_file ["hello"] "240115_test.txt" =
      FileResult.error_output
        (serialize_doc (["", "", "ERROR: 入力ファイルの構造が不正です。"] ++
          (validate_file_structure ["hello"]).map fun e => "- " ++ e))
        (join_sep " / " (validate_file_structure ["hello"])) :=
  ⟨(zero_parent_halts ["hello"] (by decide)).1,
   (zero_parent_halts ["hello"] (by decide)).2 "240115_test.txt"⟩

/-! ## Divider-count violations (C5) -/

theorem validate_child_block_zero (lines : List String) (p c : Nat)
    (cb : Nat × Nat) (h : (qa_split_indices lines cb.1 cb.2).length = 0) :
    validate_child_block lines p c cb =
      [toString p ++ "番目問答 / " ++ toString c ++
        "番目子ブロック: [QA_SPLIT] がありません。"] := by
  unfold validate_child_block
  rw [if_pos (by rw [h]; rfl)]

theorem validate_child_block_multi (lines : List String) (p c : Nat)
    (cb : Nat × Nat) (h : 2 ≤ (qa_split_indices lines cb.1 cb.2).length) :
    validate_child_block lines p c cb =
      [toString p ++ "番目問答 / " ++ toString c ++
        "番目子ブロック: [QA_SPLIT] が複数存在します。"] := by
  unfold validate_child_block
  rw [if_neg (by
    intro hcon
    have : (qa_split_indices lines cb.1 cb.2).length = 0 := by
      simpa using hcon
    omega)]
  rw [if_pos h]

theorem validate_children_mem (lines : List String) (p_idx : Nat) :
    ∀ (cbs : List (Nat × Nat)) (c_idx j : Nat), j < cbs.length →
    ∀ e ∈ validate_child_block lines p_idx (c_idx + j) (cbs.getD j (0, 0)),
      e ∈ validate_children lines p_idx c_idx cbs := by
  intro cbs
  induction cbs with
  | nil => intro c_idx j hj; simp at hj
  | cons cb rest ih =>
    intro c_idx j hj e he
    unfold validate_children
    rw [List.mem_append]
    cases j with
    | zero => exact Or.inl (by simpa using he)
    | succ j' =>
      refine Or.inr (ih (c_idx + 1) j' (by simpa using Nat.lt_of_succ_lt_succ hj) e ?_)
      have : c_idx + 1 + j' = c_idx + (j' + 1) := by omega
      rw [this]
      simpa using he

theorem validate_parents_mem (lines : List String) :
    ∀ (pbs : List (Nat × Nat)) (p_idx k : Nat), k < pbs.length →
    ∀ e ∈ validate_parent_block lines (p_idx + k) (pbs.getD k (0, 0)),
      e ∈ validate_parents lines p_idx pbs := by
  intro pbs
  induction pbs with
  | nil => intro p_idx k hk; simp at hk
  | cons pb rest ih =>
    intro p_idx k hk e he
    unfold validate_parents
    rw [List.mem_append]
    cases k with
    | zero => exact Or.inl (by simpa using he)
    | succ k' =>
      refine Or.inr (ih (p_idx + 1) k' (by simpa using Nat.lt_of_succ_lt_succ hk) e ?_)
      have : p_idx + 1 + k' = p_idx + (k' + 1) := by omega
      rw [this]
      simpa using he

theorem validate_parent_block_children (lines : List String) (p_idx : Nat)
    (pb : Nat × Nat) (h : split_child_blocks lines pb.1 pb.2 ≠ []) :
    validate_parent_block lines p_idx pb =
      validate_children lines p_idx 1 (split_child_blocks lines pb.1 pb.2) := by
  unfold validate_parent_block
  rw [if_neg (by simpa [List.isEmpty_iff] using h)]

/-- Sample input of Scenario B: a single child block with two divider
lines. -/
def sample_input_b : List String :=
  ["[PARENT]", "[CHILD]", "Q", "[QA_SPLIT]", "x", "[QA_SPLIT]", "A"]

/-- C5: every child block whose divider count is not exactly one produces its
specific violation in the validation result, and for Scenario B's input the
violation list is exactly that one violation naming the child block, and the
file yields a diagnostic document, not a structured one. -/
theorem divider_count_violations :
    (∀ (lines : List String) (k j : Nat) (pb cb : Nat × Nat),
      k < (split_parent_blocks lines).length →
      pb = (split_parent_blocks lines).getD k (0, 0) →
      j < (split_child_blocks lines pb.1 pb.2).length →
      cb = (split_child_blocks lines pb.1 pb.2).getD j (0, 0) →
      (qa_split_indices lines cb.1 cb.2).length ≠ 1 →
      (if (qa_split_indices lines cb.1 cb.2).length = 0 then
        toString (k + 1) ++ "番目問答 / " ++ toString (j + 1) ++
          "番目子ブロック: [QA_SPLIT] がありません。"
      else
        toString (k + 1) ++ "番目問答 / " ++ toString (j + 1) ++
          "番目子ブロック: [QA_SPLIT] が複数存在します。") ∈
        validate_file_structure lines) ∧
    validate_file_structure sample_input_b =
      ["1番目問答 / 1番目子ブロック: [QA_SPLIT] が複数存在します。"] ∧
    process_single_file sample_input_b "240115_test.txt" =
      FileResult.error_output
        ["", "", "ERROR: 入力ファイルの構造が不正です。",
         "- 1番目問答 / 1番目子ブロック: [QA_SPLIT] が複数存在します。"]
        "1番目問答 / 1番目子ブロック: [QA_SPLIT] が複数存在します。" := by
  refine ⟨?_, by decide, by decide⟩
  intro lines k j pb cb hk hpb hj hcb hcount
  have hpbs_ne : split_parent_blocks lines ≠ [] := by
    intro hcon
    rw [hcon] at hk
    simp at hk
  have hcbs_ne : split_child_blocks lines pb.1 pb.2 ≠ [] := by
    intro hcon
    rw [hcon] at hj
    simp at hj
  have hmsg : validate_child_block lines (1 + k) (1 + j) cb =
      [(if (qa_split_indices lines cb.1 cb.2).length = 0 then
        toString (k + 1) ++ "番目問答 / " ++ toString (j + 1) ++
          "番目子ブロック: [QA_SPLIT] がありません。"
      else
        toString (k + 1) ++ "番目問答 / " ++ toString (j + 1) ++
          "番目子ブロック: [QA_SPLIT] が複数存在します。")] := by
    by_cases hz : (qa_split_indices lines cb.1 cb.2).length = 0
    · rw [if_pos hz, validate_child_block_zero lines (1 + k) (1 + j) cb hz,
        Nat.add_comm 1 k, Nat.add_comm 1 j]
    · rw [if_neg hz, validate_child_block_multi lines (1 + k) (1 + j) cb (by omega),
        Nat.add_comm 1 k, Nat.add_comm 1 j]
  unfold validate_file_structure
  rw [if_neg (by simpa [List.isEmpty_iff] using hpbs_ne)]
  rw [List.mem_append]
  right
  apply validate_parents_mem lines (split_parent_blocks lines) 1 k hk
  rw [← hpb, validate_parent_block_children lines (1 + k) pb hcbs_ne]
  apply validate_children_mem lines (1 + k) (split_child_blocks lines pb.1 pb.2) 1 j hj
  rw [← hcb, hmsg]
  simp

/-- C5 witness: the universal part applied to Scenario B's concrete child
block with two dividers. -/
theorem divider_count_violations_witness :
    (qa_split_indices sample_input_b 1 7).length = 2 ∧
    (if (qa_split_indices sample_input_b 1 7).length = 0 then
      toString (0 + 1) ++ "番目問答 / " ++ toString (0 + 1) ++
        "番目子ブロック: [QA_SPLIT] がありません。"
    else
      toString (0 + 1) ++ "番目問答 / " ++ toString (0 + 1) ++
        "番目子ブロック: [QA_SPLIT] が複数存在します。") ∈
      validate_file_structure sample_input_b :=
  ⟨by decide, divider_count_violations.1 sample_input_b 0 0 (0, 7) (1, 7)
    (by decide) (by decide) (by decide) (by decide) (by decide)⟩

/-! ## Support lemmas towards the builder postcondition (C1) -/

theorem mk_ranges_mem_fst : ∀ (idxs : List Nat) (endIdx a b : Nat),
    (a, b) ∈ mk_ranges idxs endIdx → a ∈ idxs := by
  intro idxs
  induction idxs with
  | nil => intro endIdx a b h; simp [mk_ranges] at h
  | cons i rest ih =>
    intro endIdx a b h
    cases rest with
    | nil =>
      simp [mk_ranges] at h
      simp [h.1]
    | cons j rest' =>
      rw [mk_ranges] at h
      rcases List.mem_cons.mp h with h1 | h1
      · simp at h1
        simp [h1.1]
      · exact List.mem_cons_of_mem i (ih endIdx a b h1)

theorem qa_split_indices_singleton (lines : List String) (cs ce qa : Nat)
    (h : qa_split_indices lines cs ce = [qa]) :
    cs ≤ qa ∧ qa < ce ∧ (strip (getLine lines qa) == MARKER_QA_SPLIT) = true ∧
      ∀ i, cs ≤ i → i < ce →
        (strip (getLine lines i) == MARKER_QA_SPLIT) = true → i = qa := by
  have hmem : qa ∈ qa_split_indices lines cs ce := by rw [h]; simp
  unfold qa_split_indices at hmem
  rw [List.mem_filter] at hmem
  obtain ⟨hrange, hpred⟩ := hmem
  rw [List.mem_range'_1] at hrange
  have hce : cs < ce := by omega
  refine ⟨hrange.1, by omega, hpred, ?_⟩
  intro i hi1 hi2 hpi
  have : i ∈ qa_split_indices lines cs ce := by
    unfold qa_split_indices
    rw [List.mem_filter, List.mem_range'_1]
    exact ⟨⟨hi1, by omega⟩, hpi⟩
  rw [h] at this
  simpa using this

theorem validate_parents_eq_nil (lines : List String) :
    ∀ (pbs : List (Nat × Nat)) (p : Nat),
    validate_parents lines p pbs = [] →
    ∀ k, k < pbs.length →
      validate_parent_block lines (p + k) (pbs.getD k (0, 0)) = [] := by
  intro pbs
  induction pbs with
  | nil => intro p h k hk; simp at hk
  | cons pb rest ih =>
    intro p h k hk
    unfold validate_parents at h
    obtain ⟨h1, h2⟩ := List.append_eq_nil.mp h
    cases k with
    | zero => simpa using h1
    | succ k' =>
      have := ih (p + 1) h2 k' (by simpa using Nat.lt_of_succ_lt_succ hk)
      have harith : p + (k' + 1) = p + 1 + k' := by omega
      rw [harith]
      simpa using this

theorem validate_children_eq_nil (lines : List String) (p_idx : Nat) :
    ∀ (cbs : List (Nat × Nat)) (c : Nat),
    validate_children lines p_idx c cbs = [] →
    ∀ j, j < cbs.length →
      validate_child_block lines p_idx (c + j) (cbs.getD j (0, 0)) = [] := by
  intro cbs
  induction cbs with
  | nil => intro c h j hj; simp at hj
  | cons cb rest ih =>
    intro c h j hj
    unfold validate_children at h
    obtain ⟨h1, h2⟩ := List.append_eq_nil.mp h
    cases j with
    | zero => simpa using h1
    | succ j' =>
      have := ih (c + 1) h2 j' (by simpa using Nat.lt_of_succ_lt_succ hj)
      have harith : c + (j' + 1) = c + 1 + j' := by omega
      rw [harith]
      simpa using this

theorem validate_child_block_nil_inv (lines : List String) (p c : Nat)
    (cb : Nat × Nat) (h : validate_child_block lines p c cb = []) :
    ∃ qa q a,
      qa_split_indices lines cb.1 cb.2 = [qa] ∧
      next_non_empty_index lines (cb.1 + 1) = some q ∧ q < qa ∧
      next_non_empty_index lines (qa + 1) = some a ∧ a < cb.2 := by
  unfold validate_child_block at h
  by_cases hz : ((qa_split_indices lines cb.1 cb.2).length == 0) = true
  · rw [if_pos hz] at h
    simp at h
  · rw [if_neg hz] at h
    by_cases h2 : 2 ≤ (qa_split_indices lines cb.1 cb.2).length
    · rw [if_pos h2] at h
      simp at h
    · rw [if_neg h2] at h
      have hone : (qa_split_indices lines cb.1 cb.2).length = 1 := by
        have h0 : (qa_split_indices lines cb.1 cb.2).length ≠ 0 := by
          intro hcon
          exact hz (by simp [hcon])
        omega
      obtain ⟨qa, hqa⟩ := List.length_eq_one.mp hone
      rw [hqa] at h
      have hhead : ([qa] : List Nat).headD 0 = qa := rfl
      rw [hhead] at h
      cases hq : next_non_empty_index lines (cb.1 + 1) with
      | none => rw [hq] at h; simp at h
      | some q =>
        rw [hq] at h
        have h' : (if qa ≤ q then
            [toString p ++ "番目問答 / " ++ toString c ++
              "番目子ブロック: [CHILD] の次の非空行（質問起点）が存在しない、または [QA_SPLIT] より後です。"]
          else
            match next_non_empty_index lines (qa + 1) with
            | none =>
              [toString p ++ "番目問答 / " ++ toString c ++
                "番目子ブロック: [QA_SPLIT] の次の非空行（回答起点）が存在しません。"]
            | some a_line_idx =>
              if cb.2 ≤ a_line_idx then
                [toString p ++ "番目問答 / " ++ toString c ++
                  "番目子ブロック: [QA_SPLIT] の次の非空行（回答起点）が存在しません。"]
              else []) = [] := h
        by_cases hle : qa ≤ q
        · rw [if_pos hle] at h'
          simp at h'
        · rw [if_neg hle] at h'
          cases ha : next_non_empty_index lines (qa + 1) with
          | none => rw [ha] at h'; simp at h'
          | some a =>
            rw [ha] at h'
            have h'' : (if cb.2 ≤ a then
                [toString p ++ "番目問答 / " ++ toString c ++
                  "番目子ブロック: [QA_SPLIT] の次の非空行（回答起点）が存在しません。"]
              else []) = [] := h'
            by_cases hace : cb.2 ≤ a
            · rw [if_pos hace] at h''
              simp at h''
            · exact ⟨qa, q, a, hqa, rfl, by omega, ha, by omega⟩

/-- `find_first` over a cons whose head fails the predicate. -/
theorem find_first_cons_false (p : String → Bool) (x : String) (l : List String)
    (hx : p x = false) :
    find_first p (x :: l) = (find_first p l).map (· + 1) := by
  simp [find_first, hx]

theorem find_first_append_some (p : String → Bool) (a b : List String) (i : Nat)
    (h : find_first p a = some i) : find_first p (a ++ b) = some i := by
  induction a generalizing i with
  | nil => simp [find_first] at h
  | cons x rest ih =>
    by_cases hx : p x = true
    · simp [find_first, hx] at h ⊢
      exact h
    · rw [Bool.not_eq_true] at hx
      rw [find_first_cons_false p x rest hx] at h
      rw [List.cons_append, find_first_cons_false p x (rest ++ b) hx]
      simp only [Option.map_eq_some'] at h ⊢
      obtain ⟨i', hi', hplus⟩ := h
      exact ⟨i', ih i' hi', hplus⟩

theorem find_first_append_none (p : String → Bool) (a b : List String)
    (h : find_first p a = none) :
    find_first p (a ++ b) = (find_first p b).map (· + a.length) := by
  induction a with
  | nil => simp
  | cons x rest ih =>
    by_cases hx : p x = true
    · simp [find_first, hx] at h
    · rw [Bool.not_eq_true] at hx
      rw [find_first_cons_false p x _ hx] at h
      rw [List.cons_append, find_first_cons_false p x _ hx]
      simp only [Option.map_eq_none'] at h
      rw [ih h]
      cases find_first p b with
      | none => rfl
      | some m =>
        simp only [Option.map_some', Option.some.injEq, List.length_cons]
        omega

/-- `build_child_output_lines` succeeds once its intermediate stages succeed,
the tag counts are exactly one, and the question tag precedes the answer
tag. -/
theorem build_child_ok_of (content : List String) (is_major : Bool)
    (fup : Option Nat) (qa_rel : Nat) (qt at' : List String)
    (q_pos a_pos : Nat)
    (hffc : find_first (fun line => strip line == MARKER_QA_SPLIT) content =
      some qa_rel)
    (htsq : tag_step TAG_Q (trim_trailing_blank (content.take qa_rel)) = some qt)
    (htsa : tag_step TAG_A (trim_leading_blank (content.drop (qa_rel + 1))) =
      some at')
    (hqc : (([MARKER_CHILD] ++
        (if is_major then ["## 主要問答"] else ["## 更問" ++ optNatToString fup]) ++
        qt ++ at').filter fun line => starts_with line TAG_Q).length = 1)
    (hac : (([MARKER_CHILD] ++
        (if is_major then ["## 主要問答"] else ["## 更問" ++ optNatToString fup]) ++
        qt ++ at').filter fun line => starts_with line TAG_A).length = 1)
    (hfq : find_first (fun line => starts_with line TAG_Q)
      ([MARKER_CHILD] ++
        (if is_major then ["## 主要問答"] else ["## 更問" ++ optNatToString fup]) ++
        qt ++ at') = some q_pos)
    (hfa : find_first (fun line => starts_with line TAG_A)
      ([MARKER_CHILD] ++
        (if is_major then ["## 主要問答"] else ["## 更問" ++ optNatToString fup]) ++
        qt ++ at') = some a_pos)
    (hlt : q_pos < a_pos) :
    build_child_output_lines content is_major fup =
      Except.ok (trim_trailing_blank ([MARKER_CHILD] ++
        (if is_major then ["## 主要問答"] else ["## 更問" ++ optNatToString fup]) ++
        qt ++ at')) := by
  unfold build_child_output_lines
  simp only [hffc, htsq, htsa, hqc, hac, hfq, hfa]
  rw [if_neg (by simp)]
  rw [if_neg (by omega)]

theorem getLine_list_slice (lines : List String) (a b m : Nat) (hm : m < b - a) :
    getLine (list_slice lines a b) m = getLine lines (a + m) := by
  unfold list_slice
  rw [getLine_take _ _ _ hm, getLine_drop]

theorem idx_lt_of_strip_beq (lines : List String) (i : Nat) (m : String)
    (hm : (("" : String) == m) = false)
    (h : (strip (getLine lines i) == m) = true) : i < lines.length := by
  by_contra hcon
  push_neg at hcon
  rw [getLine_eq_empty_of_ge lines i hcon] at h
  rw [show strip "" = "" from rfl] at h
  rw [hm] at h
  exact Bool.false_ne_true h

theorem title_not_starts_q (is_major : Bool) (fup : Option Nat) :
    starts_with (if is_major then "## 主要問答" else "## 更問" ++ optNatToString fup)
      TAG_Q = false := by
  cases is_major with
  | true => rfl
  | false => rfl

theorem title_not_starts_a (is_major : Bool) (fup : Option Nat) :
    starts_with (if is_major then "## 主要問答" else "## 更問" ++ optNatToString fup)
      TAG_A = false := by
  cases is_major with
  | true => rfl
  | false => rfl

theorem out_shape_eq (is_major : Bool) (fup : Option Nat) (qt at' : List String) :
    ([MARKER_CHILD] ++
      (if is_major then ["## 主要問答"] else ["## 更問" ++ optNatToString fup]) ++
      qt ++ at') =
    MARKER_CHILD ::
      (if is_major then "## 主要問答" else "## 更問" ++ optNatToString fup) ::
      (qt ++ at') := by
  cases is_major <;> simp

/-- Counting step for the builder postcondition: with untagged content, the
assembled output has exactly one question-tagged and one answer-tagged line,
in that order, so the builder succeeds. -/
theorem build_child_postcondition_counts (C : List String) (is_major : Bool)
    (fup : Option Nat) (qa_rel q_rel kq : Nat) (tq ta : List String)
    (hnotag : ∀ l ∈ C, starts_with l TAG_Q = false ∧ starts_with l TAG_A = false)
    (hffc : find_first (fun line => strip line == MARKER_QA_SPLIT) C = some qa_rel)
    (htqeq : trim_trailing_blank (C.take qa_rel) = tq)
    (htaeq : trim_leading_blank (C.drop (qa_rel + 1)) = ta)
    (hmem_tq : ∀ x ∈ tq, x ∈ C)
    (hmem_ta : ∀ x ∈ ta, x ∈ C)
    (htqlen : tq.length = kq)
    (hqrel_lt : q_rel < kq)
    (htalen : 0 < ta.length)
    (hnntq : next_non_empty_index tq 0 = some q_rel)
    (hnnta : next_non_empty_index ta 0 = some 0) :
    ∃ o, build_child_output_lines C is_major fup = Except.ok o := by
  have hqrel_len : q_rel < tq.length := by omega
  have hql_mem : getLine tq q_rel ∈ C :=
    hmem_tq _ (getLine_mem tq q_rel hqrel_len)
  have hal_mem : getLine ta 0 ∈ C := hmem_ta _ (getLine_mem ta 0 htalen)
  have hstartq : starts_with (tag_line TAG_Q (getLine tq q_rel)) TAG_Q = true :=
    starts_with_tag_line TAG_Q _
  have hstarta : starts_with (tag_line TAG_A (getLine ta 0)) TAG_A = true :=
    starts_with_tag_line TAG_A _
  have hnota_q : starts_with (tag_line TAG_Q (getLine tq q_rel)) TAG_A = false :=
    not_starts_a_of_starts_q hstartq
  have hnotq_a : starts_with (tag_line TAG_A (getLine ta 0)) TAG_Q = false :=
    not_starts_q_of_starts_a hstarta
  have htsq : tag_step TAG_Q (trim_trailing_blank (C.take qa_rel)) =
      some (tq.set q_rel (tag_line TAG_Q (getLine tq q_rel))) := by
    unfold tag_step
    rw [htqeq, hnntq]
  have htsa : tag_step TAG_A (trim_leading_blank (C.drop (qa_rel + 1))) =
      some (ta.set 0 (tag_line TAG_A (getLine ta 0))) := by
    unfold tag_step
    rw [htaeq, hnnta]
  have hqtd : tq.set q_rel (tag_line TAG_Q (getLine tq q_rel)) =
      tq.take q_rel ++ tag_line TAG_Q (getLine tq q_rel) :: tq.drop (q_rel + 1) :=
    List.set_eq_take_cons_drop _ hqrel_len
  have hatd : ta.set 0 (tag_line TAG_A (getLine ta 0)) =
      tag_line TAG_A (getLine ta 0) :: ta.drop 1 := by
    rw [List.set_eq_take_cons_drop _ htalen]
    simp
  have hf_take_q : (tq.take q_rel).filter
      (fun line => starts_with line TAG_Q) = [] := by
    rw [List.filter_eq_nil_iff]
    intro x hx
    simp [(hnotag x (hmem_tq x (List.mem_of_mem_take hx))).1]
  have hf_take_a : (tq.take q_rel).filter
      (fun line => starts_with line TAG_A) = [] := by
    rw [List.filter_eq_nil_iff]
    intro x hx
    simp [(hnotag x (hmem_tq x (List.mem_of_mem_take hx))).2]
  have hf_drop_q : (tq.drop (q_rel + 1)).filter
      (fun line => starts_with line TAG_Q) = [] := by
    rw [List.filter_eq_nil_iff]
    intro x hx
    simp [(hnotag x (hmem_tq x (List.mem_of_mem_drop hx))).1]
  have hf_drop_a : (tq.drop (q_rel + 1)).filter
      (fun line => starts_with line TAG_A) = [] := by
    rw [List.filter_eq_nil_iff]
    intro x hx
    simp [(hnotag x (hmem_tq x (List.mem_of_mem_drop hx))).2]
  have hf_tad_q : (ta.drop 1).filter (fun line => starts_with line TAG_Q) = [] := by
    rw [List.filter_eq_nil_iff]
    intro x hx
    simp [(hnotag x (hmem_ta x (List.mem_of_mem_drop hx))).1]
  have hf_tad_a : (ta.drop 1).filter (fun line => starts_with line TAG_A) = [] := by
    rw [List.filter_eq_nil_iff]
    intro x hx
    simp [(hnotag x (hmem_ta x (List.mem_of_mem_drop hx))).2]
  have hfilter_qt_q : (tq.set q_rel (tag_line TAG_Q (getLine tq q_rel))).filter
      (fun line => starts_with line TAG_Q) = [tag_line TAG_Q (getLine tq q_rel)] := by
    rw [hqtd, List.filter_append, hf_take_q, List.filter_cons, hf_drop_q]
    simp [hstartq]
  have hfilter_qt_a : (tq.set q_rel (tag_line TAG_Q (getLine tq q_rel))).filter
      (fun line => starts_with line TAG_A) = [] := by
    rw [hqtd, List.filter_append, hf_take_a, List.filter_cons, hf_drop_a]
    simp [hnota_q]
  have hfilter_at_q : (ta.set 0 (tag_line TAG_A (getLine ta 0))).filter
      (fun line => starts_with line TAG_Q) = [] := by
    rw [hatd, List.filter_cons, hf_tad_q]
    simp [hnotq_a]
  have hfilter_at_a : (ta.set 0 (tag_line TAG_A (getLine ta 0))).filter
      (fun line => starts_with line TAG_A) = [tag_line TAG_A (getLine ta 0)] := by
    rw [hatd, List.filter_cons, hf_tad_a]
    simp [hstarta]
  have hCq : starts_with MARKER_CHILD TAG_Q = false := by decide
  have hCa : starts_with MARKER_CHILD TAG_A = false := by decide
  have hffqt : find_first (fun line => starts_with line TAG_Q)
      (tq.set q_rel (tag_line TAG_Q (getLine tq q_rel))) = some q_rel := by
    rw [hqtd]
    rw [find_first_append_none _ _ _ (by
      rw [find_first_none_iff]
      intro x hx
      exact (hnotag x (hmem_tq x (List.mem_of_mem_take hx))).1)]
    rw [show find_first (fun line => starts_with line TAG_Q)
        (tag_line TAG_Q (getLine tq q_rel) :: tq.drop (q_rel + 1)) = some 0 from by
      simp [find_first, hstartq]]
    simp only [Option.map_some']
    congr 1
    rw [List.length_take]
    omega
  have hffqta : find_first (fun line => starts_with line TAG_Q)
      ((tq.set q_rel (tag_line TAG_Q (getLine tq q_rel))) ++
        ta.set 0 (tag_line TAG_A (getLine ta 0))) = some q_rel :=
    find_first_append_some _ _ _ _ hffqt
  have hffqt_a_none : find_first (fun line => starts_with line TAG_A)
      (tq.set q_rel (tag_line TAG_Q (getLine tq q_rel))) = none := by
    rw [find_first_none_iff]
    intro x hx
    have := List.filter_eq_nil_iff.mp hfilter_qt_a x hx
    simpa using this
  have hffat_a : find_first (fun line => starts_with line TAG_A)
      (ta.set 0 (tag_line TAG_A (getLine ta 0))) = some 0 := by
    rw [hatd]
    simp [find_first, hstarta]
  have hqtlen : (tq.set q_rel (tag_line TAG_Q (getLine tq q_rel))).length = kq := by
    rw [List.length_set]
    omega
  have hfa_qtat : find_first (fun line => starts_with line TAG_A)
      ((tq.set q_rel (tag_line TAG_Q (getLine tq q_rel))) ++
        ta.set 0 (tag_line TAG_A (getLine ta 0))) = some kq := by
    rw [find_first_append_none _ _ _ hffqt_a_none, hffat_a]
    simp only [Option.map_some']
    rw [Nat.zero_add, hqtlen]
  have hqc : (([MARKER_CHILD] ++
      (if is_major then ["## 主要問答"] else ["## 更問" ++ optNatToString fup]) ++
      (tq.set q_rel (tag_line TAG_Q (getLine tq q_rel))) ++
      ta.set 0 (tag_line TAG_A (getLine ta 0))).filter
        fun line => starts_with line TAG_Q).length = 1 := by
    rw [out_shape_eq, List.filter_cons, List.filter_cons, List.filter_append,
      hfilter_qt_q, hfilter_at_q]
    simp [hCq, title_not_starts_q]
  have hac : (([MARKER_CHILD] ++
      (if is_major then ["## 主要問答"] else ["## 更問" ++ optNatToString fup]) ++
      (tq.set q_rel (tag_line TAG_Q (getLine tq q_rel))) ++
      ta.set 0 (tag_line TAG_A (getLine ta 0))).filter
        fun line => starts_with line TAG_A).length = 1 := by
    rw [out_shape_eq, List.filter_cons, List.filter_cons, List.filter_append,
      hfilter_qt_a, hfilter_at_a]
    simp [hCa, title_not_starts_a]
  have hfq_out : find_first (fun line => starts_with line TAG_Q)
      ([MARKER_CHILD] ++
        (if is_major then ["## 主要問答"] else ["## 更問" ++ optNatToString fup]) ++
        (tq.set q_rel (tag_line TAG_Q (getLine tq q_rel))) ++
        ta.set 0 (tag_line TAG_A (getLine ta 0))) = some (q_rel + 1 + 1) := by
    rw [out_shape_eq,
      find_first_cons_false (fun line => starts_with line TAG_Q) MARKER_CHILD _ hCq,
      find_first_cons_false (fun line => starts_with line TAG_Q) _ _
        (title_not_starts_q is_major fup), hffqta]
    rfl
  have hfa_out : find_first (fun line => starts_with line TAG_A)
      ([MARKER_CHILD] ++
        (if is_major then ["## 主要問答"] else ["## 更問" ++ optNatToString fup]) ++
        (tq.set q_rel (tag_line TAG_Q (getLine tq q_rel))) ++
        ta.set 0 (tag_line TAG_A (getLine ta 0))) = some (kq + 1 + 1) := by
    rw [out_shape_eq,
      find_first_cons_false (fun line => starts_with line TAG_A) MARKER_CHILD _ hCa,
      find_first_cons_false (fun line => starts_with line TAG_A) _ _
        (title_not_starts_a is_major fup), hfa_qtat]
    rfl
  exact ⟨_, build_child_ok_of C is_major fup qa_rel
    (tq.set q_rel (tag_line TAG_Q (getLine tq q_rel)))
    (ta.set 0 (tag_line TAG_A (getLine ta 0))) (q_rel + 1 + 1) (kq + 1 + 1)
    hffc htsq htsa hqc hac hfq_out hfa_out (by omega)⟩

/-- C1 (amended): on any child block of a validated document whose content
carries no pre-existing question/answer tag, the builder succeeds — its
internal postcondition (one tagged question, one tagged answer, question
first) never fails. -/
theorem build_child_postcondition (lines : List String) (pb cb : Nat × Nat)
    (is_major : Bool) (fup : Option Nat)
    (hval : validate_file_structure lines = [])
    (hpb : pb ∈ split_parent_blocks lines)
    (hcb : cb ∈ split_child_blocks lines pb.1 pb.2)
    (hnotag : ∀ l ∈ child_content_of lines cb,
      starts_with l TAG_Q = false ∧ starts_with l TAG_A = false) :
    ∃ o, build_child_output_lines (child_content_of lines cb) is_major fup =
      Except.ok o := by
  -- recover the per-child validation conditions
  obtain ⟨hmark, hvp⟩ := validate_parts_of_empty lines hval
  obtain ⟨k, hkl, hpbk⟩ := List.getElem_of_mem hpb
  have hgetd : (split_parent_blocks lines).getD k (0, 0) = pb := by
    simp [List.getD_eq_getElem?_getD, List.getElem?_eq_getElem hkl, hpbk]
  have hvpb := validate_parents_eq_nil lines _ 1 hvp k hkl
  rw [hgetd] at hvpb
  have hcbs_ne : split_child_blocks lines pb.1 pb.2 ≠ [] := List.ne_nil_of_mem hcb
  rw [validate_parent_block_children lines (1 + k) pb hcbs_ne] at hvpb
  obtain ⟨j, hjl, hcbj⟩ := List.getElem_of_mem hcb
  have hvcb := validate_children_eq_nil lines (1 + k) _ 1 hvpb j hjl
  have hgetd2 : (split_child_blocks lines pb.1 pb.2).getD j (0, 0) = cb := by
    simp [List.getD_eq_getElem?_getD, List.getElem?_eq_getElem hjl, hcbj]
  rw [hgetd2] at hvcb
  obtain ⟨qa, q, a, hqa, hq, hqlt, ha, halt⟩ :=
    validate_child_block_nil_inv lines (1 + k) (1 + j) cb hvcb
  -- the [CHILD] marker line at the block start
  have hcsP : (strip (getLine lines cb.1) == MARKER_CHILD) = true := by
    have hmem : cb.1 ∈ child_indices lines pb.1 pb.2 := by
      exact mk_ranges_mem_fst (child_indices lines pb.1 pb.2) pb.2 cb.1 cb.2
        (by simpa using hcb)
    unfold child_indices at hmem
    exact (List.mem_filter.mp hmem).2
  -- index facts
  obtain ⟨hqa1, hqa2, hqaP, huniq⟩ := qa_split_indices_singleton lines cb.1 cb.2 qa hqa
  obtain ⟨hq1, hq2, hq3, hq4⟩ := next_non_empty_some lines (cb.1 + 1) q hq
  obtain ⟨ha1, ha2, ha3, ha4⟩ := next_non_empty_some lines (qa + 1) a ha
  have hqalen : qa < lines.length :=
    idx_lt_of_strip_beq lines qa MARKER_QA_SPLIT (by decide) hqaP
  have hqacs : cb.1 + 1 ≤ qa := by
    rcases Nat.lt_or_ge cb.1 qa with hlt | hge
    · omega
    · exfalso
      have hqaeq : qa = cb.1 := by omega
      rw [hqaeq, beq_iff_eq] at hqaP
      rw [beq_iff_eq] at hcsP
      rw [hcsP] at hqaP
      exact absurd hqaP (by decide)
  -- content coordinates
  have hclen : (child_content_of lines cb).length =
      min (cb.2 - (cb.1 + 1)) (lines.length - (cb.1 + 1)) := by
    simp [child_content_of, list_slice]
  have hcget : ∀ m, m < cb.2 - (cb.1 + 1) →
      getLine (child_content_of lines cb) m = getLine lines (cb.1 + 1 + m) := by
    intro m hm
    exact getLine_list_slice lines (cb.1 + 1) cb.2 m hm
  have hffc : find_first (fun line => strip line == MARKER_QA_SPLIT)
      (child_content_of lines cb) = some (qa - (cb.1 + 1)) := by
    apply find_first_intro
    · rw [hclen]; omega
    · rw [hcget _ (by omega), show cb.1 + 1 + (qa - (cb.1 + 1)) = qa from by omega]
      exact hqaP
    · intro m hm
      rw [hcget m (by omega)]
      by_cases hp : (strip (getLine lines (cb.1 + 1 + m)) == MARKER_QA_SPLIT) = true
      · have := huniq _ (by omega) (by omega) hp
        omega
      · rwa [Bool.not_eq_true] at hp
  -- the question part
  have hqp0get : ∀ m, m < qa - (cb.1 + 1) →
      getLine ((child_content_of lines cb).take (qa - (cb.1 + 1))) m =
        getLine lines (cb.1 + 1 + m) := by
    intro m hm
    rw [getLine_take _ _ _ hm]
    exact hcget m (by omega)
  have hqp0len : ((child_content_of lines cb).take (qa - (cb.1 + 1))).length =
      qa - (cb.1 + 1) := by
    rw [List.length_take, hclen]
    omega
  obtain ⟨kq, hkqle, htq, hblq⟩ :=
    trim_trailing_spec ((child_content_of lines cb).take (qa - (cb.1 + 1)))
  have hqrel_lt : q - (cb.1 + 1) < kq := by
    by_contra hcon
    push_neg at hcon
    have := hblq (q - (cb.1 + 1)) hcon
    rw [hqp0get _ (by omega), show cb.1 + 1 + (q - (cb.1 + 1)) = q from by omega] at this
    simp [is_blank_line] at this
    simp [is_non_empty_line, this] at hq3
  have htqlen : (trim_trailing_blank
      ((child_content_of lines cb).take (qa - (cb.1 + 1)))).length = kq := by
    rw [htq, List.length_take, hqp0len]
    omega
  have htqget : ∀ m, m < kq →
      getLine (trim_trailing_blank
        ((child_content_of lines cb).take (qa - (cb.1 + 1)))) m =
      getLine ((child_content_of lines cb).take (qa - (cb.1 + 1))) m := by
    intro m hm
    rw [htq, getLine_take _ _ _ hm]
  have hnntq : next_non_empty_index (trim_trailing_blank
      ((child_content_of lines cb).take (qa - (cb.1 + 1)))) 0 =
      some (q - (cb.1 + 1)) := by
    apply next_non_empty_intro _ _ _ (Nat.zero_le _)
    · rw [htqlen]; omega
    · rw [htqget _ hqrel_lt, hqp0get _ (by omega),
        show cb.1 + 1 + (q - (cb.1 + 1)) = q from by omega]
      exact hq3
    · intro m _ hm
      rw [htqget _ (by omega), hqp0get _ (by omega)]
      exact hq4 _ (by omega) (by omega)
  have hmem_tq : ∀ x ∈ trim_trailing_blank
      ((child_content_of lines cb).take (qa - (cb.1 + 1))),
      x ∈ child_content_of lines cb := by
    intro x hx
    rw [htq] at hx
    exact List.mem_of_mem_take (List.mem_of_mem_take hx)
  -- the answer part
  have hap0get : ∀ m,
      getLine ((child_content_of lines cb).drop (qa - (cb.1 + 1) + 1)) m =
        getLine (child_content_of lines cb) (qa - (cb.1 + 1) + 1 + m) :=
    fun m => getLine_drop _ _ _
  have hap0len : ((child_content_of lines cb).drop (qa - (cb.1 + 1) + 1)).length =
      (child_content_of lines cb).length - (qa - (cb.1 + 1) + 1) := by
    rw [List.length_drop]
  have htl : trim_leading_blank ((child_content_of lines cb).drop (qa - (cb.1 + 1) + 1)) =
      ((child_content_of lines cb).drop (qa - (cb.1 + 1) + 1)).drop (a - (qa + 1)) := by
    apply trim_leading_eq_drop
    · rw [hap0len, hclen]
      omega
    · intro m hm
      rw [hap0get m, hcget _ (by omega),
        show cb.1 + 1 + (qa - (cb.1 + 1) + 1 + m) = qa + 1 + m from by omega]
      exact ha4 _ (by omega) (by omega)
    · rw [hap0get _, hcget _ (by omega)]
      rw [show cb.1 + 1 + (qa - (cb.1 + 1) + 1 + (a - (qa + 1))) = a from by omega]
      simp [is_non_empty_line, is_blank_line] at ha3 ⊢
      exact ha3
  have htalen : 0 < (trim_leading_blank
      ((child_content_of lines cb).drop (qa - (cb.1 + 1) + 1))).length := by
    rw [htl, List.length_drop, hap0len, hclen]
    omega
  have htaget0 : getLine (trim_leading_blank
      ((child_content_of lines cb).drop (qa - (cb.1 + 1) + 1))) 0 =
      getLine lines a := by
    rw [htl, getLine_drop, hap0get, hcget _ (by omega)]
    congr 1
    omega
  have hnnta : next_non_empty_index (trim_leading_blank
      ((child_content_of lines cb).drop (qa - (cb.1 + 1) + 1))) 0 = some 0 := by
    apply next_non_empty_intro _ _ _ (Nat.zero_le _) htalen
    · rw [htaget0]
      exact ha3
    · intro m _ hm
      omega
  have hmem_ta : ∀ x ∈ trim_leading_blank
      ((child_content_of lines cb).drop (qa - (cb.1 + 1) + 1)),
      x ∈ child_content_of lines cb := by
    intro x hx
    rw [htl] at hx
    exact List.mem_of_mem_drop (List.mem_of_mem_drop hx)
  exact build_child_postcondition_counts (child_content_of lines cb) is_major fup
    (qa - (cb.1 + 1)) (q - (cb.1 + 1)) kq
    (trim_trailing_blank ((child_content_of lines cb).take (qa - (cb.1 + 1))))
    (trim_leading_blank ((child_content_of lines cb).drop (qa - (cb.1 + 1) + 1)))
    hnotag hffc rfl rfl hmem_tq hmem_ta htqlen hqrel_lt htalen hnntq hnnta

/-- A document that passes validation but carries a stray pre-tagged line in
an answer segment. -/
def sample_input_bad : List String :=
  ["[PARENT]", "[CHILD]", "Q1", "[QA_SPLIT]", "A1", "[Q] stray"]

/-- C1 counterexample: this document passes validation, yet the builder's
internal postcondition fails on its only child block (two `[Q] `-prefixed
lines end up in the output), so the builder raises on validated input. -/
theorem build_child_postcondition_cex :
    validate_file_structure sample_input_bad = [] ∧
    split_parent_blocks sample_input_bad = [(0, 6)] ∧
    split_child_blocks sample_input_bad 0 6 = [(1, 6)] ∧
    build_child_output_lines (child_content_of sample_input_bad (1, 6)) true none =
      Except.error "子ブロックの [Q]/[A] 出現数が不正です（[Q]=2, [A]=1）。" := by
  refine ⟨by decide, by decide, by decide, ?_⟩
  rfl

/-- C1 witness: the amended theorem applied to Scenario A's child block. -/
theorem build_child_postcondition_witness :
    (validate_file_structure sample_input_a = [] ∧
      (0, 5) ∈ split_parent_blocks sample_input_a ∧
      (1, 5) ∈ split_child_blocks sample_input_a 0 5 ∧
      ∀ l ∈ child_content_of sample_input_a (1, 5),
        starts_with l TAG_Q = false ∧ starts_with l TAG_A = false) ∧
    ∃ o, build_child_output_lines (child_content_of sample_input_a (1, 5))
      true none = Except.ok o :=
  ⟨⟨by decide, by decide, by decide, by decide⟩,
   build_child_postcondition sample_input_a (0, 5) (1, 5) true none
     (by decide) (by decide) (by decide) (by decide)⟩


/-! ## Shift invariance: a preamble before the first PARENT marker -/

theorem next_non_empty_shift (pre rest : List String) (s : Nat) :
    next_non_empty_index (pre ++ rest) (pre.length + s) =
      (next_non_empty_index rest s).map (fun i => i + pre.length) := by
  unfold next_non_empty_index
  rw [List.drop_append]
  cases h : find_first is_non_empty_line (rest.drop s) with
  | none => simp [h]
  | some i =>
    simp only [h, Option.map_some']
    congr 1
    omega

theorem list_slice_shift (pre rest : List String) (a b : Nat) :
    list_slice (pre ++ rest) (pre.length + a) (pre.length + b) = list_slice rest a b := by
  unfold list_slice
  rw [List.drop_append]
  congr 1
  omega

theorem filter_map_add (l : List Nat) (p : Nat → Bool) (n : Nat) :
    (l.map (fun i => n + i)).filter p = (l.filter fun i => p (n + i)).map (fun i => n + i) := by
  induction l with
  | nil => rfl
  | cons x xs ih =>
    simp only [List.map_cons, List.filter_cons]
    cases h : p (n + x) <;> simp [h, ih]

theorem range'_filter_shift (n : Nat) (p q : Nat → Bool) (hpq : ∀ i, p (n + i) = q i) :
    ∀ (len a : Nat), (List.range' (n + a) len).filter p =
      ((List.range' a len).filter q).map (fun i => n + i)
  | 0, _ => rfl
  | len + 1, a => by
    rw [List.range'_succ, List.range'_succ, List.filter_cons, List.filter_cons]
    have h1 : n + a + 1 = n + (a + 1) := by omega
    rw [h1, range'_filter_shift n p q hpq len (a + 1), hpq a]
    cases q a <;> simp

theorem parent_indices_shift (pre rest : List String)
    (hpre : ∀ l ∈ pre, (strip l == MARKER_PARENT) = false) :
    parent_indices (pre ++ rest) = (parent_indices rest).map (fun i => pre.length + i) := by
  unfold parent_indices
  rw [List.length_append, List.range_add, List.filter_append]
  have h1 : (List.range pre.length).filter
      (fun i => strip (getLine (pre ++ rest) i) == MARKER_PARENT) = [] := by
    rw [List.filter_eq_nil_iff]
    intro i hi
    rw [List.mem_range] at hi
    rw [getLine_append_left _ _ _ hi]
    simpa using hpre _ (getLine_mem pre i hi)
  rw [h1, List.nil_append, filter_map_add]
  congr 1
  apply List.filter_congr
  intro i _
  rw [getLine_append_right]

theorem mk_ranges_shift (n : Nat) : ∀ (idxs : List Nat) (e : Nat),
    mk_ranges (idxs.map (fun i => n + i)) (n + e) =
      (mk_ranges idxs e).map (fun r => (n + r.1, n + r.2))
  | [], _ => rfl
  | [_], _ => rfl
  | i :: j :: rest, e => by
    have ih := mk_ranges_shift n (j :: rest) e
    simp only [List.map_cons] at ih ⊢
    show (n + i, n + j) :: mk_ranges ((n + j) :: rest.map (fun i => n + i)) (n + e) = _
    rw [ih]
    rfl

theorem split_parent_blocks_shift (pre rest : List String)
    (hpre : ∀ l ∈ pre, (strip l == MARKER_PARENT) = false) :
    split_parent_blocks (pre ++ rest) =
      (split_parent_blocks rest).map (fun r => (pre.length + r.1, pre.length + r.2)) := by
  unfold split_parent_blocks
  rw [parent_indices_shift pre rest hpre, List.length_append, mk_ranges_shift]

theorem split_child_blocks_shift (pre rest : List String) (a b : Nat) :
    split_child_blocks (pre ++ rest) (pre.length + a) (pre.length + b) =
      (split_child_blocks rest a b).map (fun r => (pre.length + r.1, pre.length + r.2)) := by
  unfold split_child_blocks child_indices
  have hsub : pre.length + b - (pre.length + a) = b - a := by omega
  rw [hsub]
  rw [range'_filter_shift pre.length _ _ (fun i => by rw [getLine_append_right]) (b - a) a]
  rw [mk_ranges_shift]

theorem qa_split_indices_shift (pre rest : List String) (a b : Nat) :
    qa_split_indices (pre ++ rest) (pre.length + a) (pre.length + b) =
      (qa_split_indices rest a b).map (fun i => pre.length + i) := by
  unfold qa_split_indices
  have hsub : pre.length + b - (pre.length + a) = b - a := by omega
  rw [hsub]
  rw [range'_filter_shift pre.length _ _ (fun i => by rw [getLine_append_right]) (b - a) a]

theorem validate_child_block_shift (pre rest : List String) (p c cs ce : Nat) :
    validate_child_block (pre ++ rest) p c (pre.length + cs, pre.length + ce) =
      validate_child_block rest p c (cs, ce) := by
  have hqa : qa_split_indices (pre ++ rest) (pre.length + cs) (pre.length + ce) =
      (qa_split_indices rest cs ce).map (fun i => pre.length + i) :=
    qa_split_indices_shift pre rest cs ce
  have hn1 : next_non_empty_index (pre ++ rest) (pre.length + cs + 1) =
      (next_non_empty_index rest (cs + 1)).map (fun i => i + pre.length) := by
    rw [show pre.length + cs + 1 = pre.length + (cs + 1) by omega]
    exact next_non_empty_shift pre rest (cs + 1)
  unfold validate_child_block
  simp only [hqa, List.length_map]
  by_cases h0 : (qa_split_indices rest cs ce).length == 0
  · rw [if_pos h0, if_pos h0]
  · rw [if_neg h0, if_neg h0]
    by_cases h2 : 2 ≤ (qa_split_indices rest cs ce).length
    · rw [if_pos h2, if_pos h2]
    · rw [if_neg h2, if_neg h2]
      have hone : (qa_split_indices rest cs ce).length = 1 := by
        simp only [beq_iff_eq] at h0
        omega
      obtain ⟨qa, hqa1⟩ := List.length_eq_one.mp hone
      rw [hqa1]
      simp only [List.map_cons, List.map_nil, List.headD_cons, hn1]
      cases hq : next_non_empty_index rest (cs + 1) with
      | none => rfl
      | some qidx =>
        simp only [Option.map_some']
        by_cases hle : qa ≤ qidx
        · rw [if_pos (by omega), if_pos hle]
        · rw [if_neg (by omega), if_neg hle]
          have hn2 : next_non_empty_index (pre ++ rest) (pre.length + qa + 1) =
              (next_non_empty_index rest (qa + 1)).map (fun i => i + pre.length) := by
            rw [show pre.length + qa + 1 = pre.length + (qa + 1) by omega]
            exact next_non_empty_shift pre rest (qa + 1)
          rw [hn2]
          cases ha : next_non_empty_index rest (qa + 1) with
          | none => rfl
          | some aidx =>
            simp only [Option.map_some']
            by_cases hce : ce ≤ aidx
            · rw [if_pos (by omega), if_pos hce]
            · rw [if_neg (by omega), if_neg hce]

theorem validate_children_shift (pre rest : List String) (p : Nat) :
    ∀ (cbs : List (Nat × Nat)) (c : Nat),
    validate_children (pre ++ rest) p c
        (cbs.map (fun r => (pre.length + r.1, pre.length + r.2))) =
      validate_children rest p c cbs
  | [], _ => rfl
  | ⟨cs, ce⟩ :: rest', c => by
    simp only [List.map_cons, validate_children]
    rw [validate_child_block_shift, validate_children_shift pre rest p rest' (c + 1)]

theorem validate_parent_block_shift (pre rest : List String) (p pa pb : Nat) :
    validate_parent_block (pre ++ rest) p (pre.length + pa, pre.length + pb) =
      validate_parent_block rest p (pa, pb) := by
  unfold validate_parent_block
  rw [show ((pre.length + pa, pre.length + pb) : Nat × Nat).1 = pre.length + pa from rfl,
    show ((pre.length + pa, pre.length + pb) : Nat × Nat).2 = pre.length + pb from rfl,
    split_child_blocks_shift]
  cases hcb : split_child_blocks rest pa pb with
  | nil => rfl
  | cons cb rcb =>
    obtain ⟨ca, ce⟩ := cb
    simp only [List.map_cons, List.isEmpty_cons, Bool.false_eq_true, if_false,
      validate_children]
    rw [validate_child_block_shift, validate_children_shift]

theorem validate_parents_shift (pre rest : List String) :
    ∀ (pbs : List (Nat × Nat)) (p : Nat),
    validate_parents (pre ++ rest) p
        (pbs.map (fun r => (pre.length + r.1, pre.length + r.2))) =
      validate_parents rest p pbs
  | [], _ => rfl
  | ⟨pa, pb⟩ :: rest', p => by
    simp only [List.map_cons, validate_parents]
    rw [validate_parent_block_shift, validate_parents_shift pre rest rest' (p + 1)]

theorem marker_alone_errors_append (a b : List String) :
    ∀ i, marker_alone_errors (a ++ b) i =
      marker_alone_errors a i ++ marker_alone_errors b (i + a.length) := by
  induction a with
  | nil => intro i; rfl
  | cons x xs ih =>
    intro i
    simp only [List.cons_append, marker_alone_errors, List.append_assoc]
    rw [show xs.append b = xs ++ b from rfl, ih (i + 1)]
    have h1 : i + 1 + xs.length = i + (x :: xs).length := by
      simp only [List.length_cons]
      omega
    rw [h1]

theorem marker_alone_errors_nil_of (l : List String) :
    ∀ i j, marker_alone_errors l i = [] → marker_alone_errors l j = [] := by
  induction l with
  | nil => intro _ _ _; rfl
  | cons x xs ih =>
    intro i j h
    simp only [marker_alone_errors, List.append_eq_nil, List.map_eq_nil_iff] at h ⊢
    exact ⟨h.1, ih (i + 1) (j + 1) h.2⟩

theorem child_content_shift (pre rest : List String) (cs ce : Nat) :
    child_content_of (pre ++ rest) (pre.length + cs, pre.length + ce) =
      child_content_of rest (cs, ce) := by
  unfold child_content_of
  show list_slice (pre ++ rest) (pre.length + cs + 1) (pre.length + ce) =
    list_slice rest (cs + 1) ce
  rw [show pre.length + cs + 1 = pre.length + (cs + 1) by omega]
  exact list_slice_shift pre rest (cs + 1) ce

theorem isEmpty_map {A B : Type} (f : A → B) (l : List A) :
    (l.map f).isEmpty = l.isEmpty := by
  cases l <;> rfl

theorem build_children_shift (pre rest : List String) :
    ∀ (cbs : List (Nat × Nat)) (c f : Nat),
    build_children (pre ++ rest)
        (cbs.map (fun r => (pre.length + r.1, pre.length + r.2))) c f =
      build_children rest cbs c f
  | [], _, _ => rfl
  | ⟨cs, ce⟩ :: rest', c, f => by
    simp only [List.map_cons, build_children]
    rw [child_content_shift,
      build_children_shift pre rest rest' (c + 1) (if c == 1 then f else f + 1)]
    simp only [isEmpty_map]

theorem process_parent_block_shift (pre rest : List String) (od id : String)
    (p q pa pb : Nat) :
    process_parent_block (pre ++ rest) od id p q (pre.length + pa, pre.length + pb) =
      process_parent_block rest od id p q (pa, pb) := by
  unfold process_parent_block
  rw [show ((pre.length + pa, pre.length + pb) : Nat × Nat).1 = pre.length + pa from rfl,
    show ((pre.length + pa, pre.length + pb) : Nat × Nat).2 = pre.length + pb from rfl,
    split_child_blocks_shift]
  cases hcb : split_child_blocks rest pa pb with
  | nil => rfl
  | cons mc rcb =>
    obtain ⟨mcs, mce⟩ := mc
    simp only [List.map_cons]
    rw [child_content_shift]
    cases hff : find_first (fun line => strip line == MARKER_QA_SPLIT)
        (child_content_of rest (mcs, mce)) with
    | none => rfl
    | some qa_rel =>
      simp only []
      cases hts : tag_step TAG_Q
          (trim_trailing_blank ((child_content_of rest (mcs, mce)).take qa_rel)) with
      | none => rfl
      | some pq =>
        simp only []
        have hbc : build_children (pre ++ rest)
            ((pre.length + mcs, pre.length + mce) ::
              rcb.map (fun r => (pre.length + r.1, pre.length + r.2))) 1 0 =
            build_children rest ((mcs, mce) :: rcb) 1 0 := by
          have := build_children_shift pre rest ((mcs, mce) :: rcb) 1 0
          simpa only [List.map_cons] using this
        rw [hbc]

theorem process_parents_shift (pre rest : List String) (od id : String) :
    ∀ (pbs : List (Nat × Nat)) (p q : Nat),
    process_parents (pre ++ rest) od id
        (pbs.map (fun r => (pre.length + r.1, pre.length + r.2))) p q =
      process_parents rest od id pbs p q
  | [], _, _ => rfl
  | ⟨pa, pb⟩ :: rest', p, q => by
    simp only [List.map_cons, process_parents]
    rw [process_parent_block_shift,
      process_parents_shift pre rest od id rest' (p + 1) (q + 1)]

theorem transform_valid_file_shift (pre rest : List String) (filename : String)
    (hpre : ∀ l ∈ pre, (strip l == MARKER_PARENT) = false) :
    transform_valid_file (pre ++ rest) filename = transform_valid_file rest filename := by
  unfold transform_valid_file
  cases hd : date_from_filename filename with
  | none => rfl
  | some pr =>
    obtain ⟨od, id⟩ := pr
    simp only []
    rw [split_parent_blocks_shift pre rest hpre, process_parents_shift]


theorem validate_file_structure_shift (pre rest : List String)
    (hpre : ∀ l ∈ pre, (strip l == MARKER_PARENT) = false)
    (hval : validate_file_structure (pre ++ rest) = []) :
    validate_file_structure rest = [] := by
  obtain ⟨hmk, hvp⟩ := validate_parts_of_empty (pre ++ rest) hval
  have hne : split_parent_blocks (pre ++ rest) ≠ [] :=
    split_parent_blocks_ne_of_validate (pre ++ rest) hval
  rw [split_parent_blocks_shift pre rest hpre] at hne hvp
  have hne' : split_parent_blocks rest ≠ [] := by
    intro h0
    rw [h0] at hne
    exact hne rfl
  rw [validate_parents_shift] at hvp
  have hmk' : validate_marker_lines_are_alone rest = [] := by
    unfold validate_marker_lines_are_alone at hmk ⊢
    rw [marker_alone_errors_append pre rest 1] at hmk
    exact marker_alone_errors_nil_of rest (1 + pre.length) 1
      (List.append_eq_nil.mp hmk).2
  unfold validate_file_structure
  rw [if_neg (by simpa [List.isEmpty_iff] using hne')]
  rw [hmk', hvp]
  rfl

theorem process_single_file_shift (pre rest : List String) (filename : String)
    (hpre : ∀ l ∈ pre, (strip l == MARKER_PARENT) = false)
    (hval : validate_file_structure (pre ++ rest) = []) :
    process_single_file (pre ++ rest) filename = process_single_file rest filename := by
  have hval' : validate_file_structure rest = [] :=
    validate_file_structure_shift pre rest hpre hval
  unfold process_single_file
  rw [hval, hval']
  simp only [List.isEmpty_nil, if_true]
  rw [transform_valid_file_shift pre rest filename hpre]

theorem parent_indices_sorted (lines : List String) :
    (parent_indices lines).Pairwise (· < ·) := by
  unfold parent_indices
  exact (List.pairwise_lt_range lines.length).sublist (List.filter_sublist _)

theorem parent_indices_mem_iff (lines : List String) (i : Nat) :
    i ∈ parent_indices lines ↔
      i < lines.length ∧ (strip (getLine lines i) == MARKER_PARENT) = true := by
  unfold parent_indices
  rw [List.mem_filter, List.mem_range]

theorem split_parent_blocks_head (lines : List String) (pb0 : Nat × Nat)
    (t : List (Nat × Nat)) (h : split_parent_blocks lines = pb0 :: t) :
    (strip (getLine lines pb0.1) == MARKER_PARENT) = true ∧
      ∀ i, i < pb0.1 → (strip (getLine lines i) == MARKER_PARENT) = false := by
  unfold split_parent_blocks at h
  cases hpi : parent_indices lines with
  | nil => rw [hpi] at h; exact absurd h (by simp [mk_ranges])
  | cons i0 irest =>
    rw [hpi] at h
    have hfst : pb0.1 = i0 := by
      cases irest with
      | nil =>
        have h' : [(i0, lines.length)] = pb0 :: t := h
        rw [← (List.cons.injEq _ _ _ _).mp h' |>.1]
      | cons j jr =>
        have h' : (i0, j) :: mk_ranges (j :: jr) lines.length = pb0 :: t := h
        rw [← (List.cons.injEq _ _ _ _).mp h' |>.1]
    have hmem : i0 ∈ parent_indices lines := by
      rw [hpi]
      exact List.mem_cons_self i0 irest
    constructor
    · rw [hfst]
      exact ((parent_indices_mem_iff lines i0).mp hmem).2
    · intro i hi
      rw [hfst] at hi
      by_cases hc : (strip (getLine lines i) == MARKER_PARENT) = true
      · exfalso
        have hlen : i < lines.length :=
          lt_trans hi ((parent_indices_mem_iff lines i0).mp hmem).1
        have hmem' : i ∈ parent_indices lines :=
          (parent_indices_mem_iff lines i).mpr ⟨hlen, hc⟩
        rw [hpi] at hmem'
        rcases List.mem_cons.mp hmem' with heq | htl
        · omega
        · have hs := parent_indices_sorted lines
          rw [hpi] at hs
          have := (List.pairwise_cons.mp hs).1 i htl
          omega
      · simpa using hc

/-- C10: for a validated document, lines preceding the first `[PARENT]` marker
are silently dropped: every parent range starts at or after the preamble's end,
the first range starts exactly at the first `[PARENT]` marker index, the
preamble triggers no validation violation (the document without it still
validates cleanly), and the processing output is identical to that of the
document with the preamble removed. -/
theorem preamble_dropped (pre rest : List String) (filename : String)
    (hpre : ∀ l ∈ pre, (strip l == MARKER_PARENT) = false)
    (hval : validate_file_structure (pre ++ rest) = []) :
    (∀ pb ∈ split_parent_blocks (pre ++ rest), pre.length ≤ pb.1) ∧
    (∀ pb0 t, split_parent_blocks (pre ++ rest) = pb0 :: t →
      (strip (getLine (pre ++ rest) pb0.1) == MARKER_PARENT) = true ∧
      ∀ i, i < pb0.1 → (strip (getLine (pre ++ rest) i) == MARKER_PARENT) = false) ∧
    validate_file_structure rest = [] ∧
    process_single_file (pre ++ rest) filename = process_single_file rest filename := by
  refine ⟨?_, ?_, validate_file_structure_shift pre rest hpre hval,
    process_single_file_shift pre rest filename hpre hval⟩
  · intro pb hpb
    rw [split_parent_blocks_shift pre rest hpre] at hpb
    obtain ⟨pb', -, rfl⟩ := List.mem_map.mp hpb
    exact Nat.le_add_right _ _
  · intro pb0 t h
    exact split_parent_blocks_head (pre ++ rest) pb0 t h

/-- Concrete instance of `preamble_dropped`: a one-line preamble before a
minimal valid document is dropped without changing the output. -/
theorem preamble_dropped_witness :
    (∀ l ∈ ["preamble text"], (strip l == MARKER_PARENT) = false) ∧
    validate_file_structure (["preamble text"] ++ sample_input_a) = [] ∧
    process_single_file (["preamble text"] ++ sample_input_a) "240115_test.txt" =
      process_single_file sample_input_a "240115_test.txt" :=
  ⟨by decide, by decide,
    (preamble_dropped ["preamble text"] sample_input_a "240115_test.txt"
      (by decide) (by decide)).2.2.2⟩
